import Mathlib

/-!
# Verification of the LocalLeaf sync engine against its specification

Shallow embedding of the LocalLeaf VS Code extension's synchronization core
(`src/sync/syncEngine.ts`, `src/api/socketio.ts`, `src/consts.ts`).

Texts and byte buffers are modelled as `List Char` (the engine decodes every
byte buffer it compares or diffs as text, so one representation serves both;
`TextEncoder`/`TextDecoder` round-trip is the identity at this level).
JavaScript `Map`s are modelled as association lists with JS `Map` semantics
(`set` replaces in place or appends, `get` looks up the unique key,
`delete` removes); `Set`s are modelled as lists of distinct members.
Asynchronous I/O performed by a handler (file reads, stats, API calls) is
supplied through explicit oracle records, and the I/O a handler performs
(file writes, API requests) is returned as an explicit effect list.
-/

namespace LocalLeaf

/-- Texts / decoded byte buffers. -/
abbrev Str := List Char

/-! ## Association-list maps with JavaScript `Map` semantics -/

/-- `Map.get(k)`: first (unique) binding of `k`. -/
def lookupA {β : Type} (m : List (Str × β)) (k : Str) : Option β :=
  match m with
  | [] => none
  | (k', v) :: rest => if k' = k then some v else lookupA rest k

/-- `Map.set(k, v)`: replace the binding in place if present, else append
(JS `Map` preserves insertion order and keeps the original slot on update). -/
def setA {β : Type} (m : List (Str × β)) (k : Str) (v : β) : List (Str × β) :=
  match m with
  | [] => [(k, v)]
  | (k', v') :: rest => if k' = k then (k, v) :: rest else (k', v') :: setA rest k v

/-- `Map.delete(k)`. -/
def delA {β : Type} (m : List (Str × β)) (k : Str) : List (Str × β) :=
  match m with
  | [] => []
  | (k', v') :: rest => if k' = k then rest else (k', v') :: delA rest k

/-! ## OT operations (`DocumentUpdate.op` in `src/api/socketio.ts`) -/

/-- One position-addressed OT component: `{ p: number; i?: string; d?: string }`. -/
structure Op where
  p : Nat
  i : Option Str := none
  d : Option Str := none
  deriving DecidableEq, Repr

/-- Apply a single op to a text buffer, exactly as the loop body of
`handleRemoteFileChanged` does: the delete branch
(`newContent.slice(0, p) + newContent.slice(p + d.length)`) runs first when
`d` is present, then the insert branch
(`newContent.slice(0, p) + i + newContent.slice(p)`) when `i` is present.
`List.take`/`List.drop` clamp out-of-range indices just as JS `slice` does. -/
def applyOp (s : Str) (op : Op) : Str :=
  let s1 := match op.d with
    | some d => s.take op.p ++ s.drop (op.p + d.length)
    | none => s
  match op.i with
  | some i => s1.take op.p ++ i ++ s1.drop op.p
  | none => s1

/-- Apply an op list strictly in array order against a running buffer
(the `for (const op of update.op)` loop of `handleRemoteFileChanged`). -/
def applyOps (ops : List Op) (s : Str) : Str :=
  ops.foldl applyOp s

/-- `SyncEngine.calculateOps`: coarse whole-document diff — if the texts are
equal emit nothing, otherwise a delete of the whole old text at position 0
(only when the old text is non-empty) followed by an insert of the whole new
text at position 0 (only when the new text is non-empty). -/
def calculateOps (oldText newText : Str) : List Op :=
  if oldText = newText then []
  else
    (if oldText.length > 0 then [{ p := 0, d := some oldText }] else []) ++
    (if newText.length > 0 then [{ p := 0, i := some newText }] else [])

/-! ## Engine data model (`src/sync/syncEngine.ts`) -/

/-- `DEBOUNCE_DELAY` from `src/consts.ts`. -/
def DEBOUNCE_DELAY : Nat := 500

/-- Reduce an integer to JavaScript's 32-bit signed range (the `| 0` and
`<<` coercions in `hashContent`). -/
def toInt32 (n : Int) : Int := (n + 2 ^ 31) % 2 ^ 32 - 2 ^ 31

/-- One step of the `hashContent` loop:
`hash = (hash << 5) - hash + chr; hash |= 0` — the shift wraps to int32
first, then the subtraction and addition are exact, then `| 0` wraps. -/
def hashStep (h : Int) (c : Char) : Int :=
  toInt32 (toInt32 (h * 32) - h + (c.toNat : Int))

/-- `hashContent(content)`: `-1` for `undefined`, else the JS string hash of
the decoded text. -/
def hashContent : Option Str → Int
  | none => -1
  | some s => s.foldl hashStep 0

/-- `contentEquals(a, b)`: `undefined === undefined` is reference-equal
(`true`); exactly one `undefined` hits `!a || !b` (`false`); two buffers
compare by length and bytes. -/
def contentEquals : Option Str → Option Str → Bool
  | none, none => true
  | some a, some b => a = b
  | _, _ => false

/-- `FileCache` entry: content hash and timestamp of last observed change. -/
structure FileCache where
  hash : Int
  timestamp : Nat
  deriving DecidableEq, Repr

/-- Entity kinds in the file tree (`'doc' | 'file' | 'folder'`). -/
inductive EntryType | doc | file | folder
  deriving DecidableEq, Repr

/-- `FileTreeEntry`. -/
structure FileTreeEntry where
  id : Str
  type : EntryType
  name : Str
  path : Str
  parentId : Option Str := none
  deriving DecidableEq, Repr

/-- `SyncStatus`. -/
inductive SyncStatus | idle | syncing | pulling | pushing | error | disconnected
  deriving DecidableEq, Repr

/-- Sticky conflict-resolution choice. -/
inductive Resolution | ask | useRemote | useLocal | skip
  deriving DecidableEq, Repr

/-- The mutable fields of a `SyncEngine` instance.  `rootId` models
`this.project?.rootFolder[0]._id` (used as fallback parent for local
creates); `hasSocket` models whether `this.socket` is defined. -/
structure EngineState where
  fileTree : List (Str × FileTreeEntry) := []
  fileTreeByPath : List (Str × FileTreeEntry) := []
  fileCache : List (Str × FileCache) := []
  baseContent : List (Str × Str) := []
  syncLock : List Str := []
  joinedDocs : List Str := []
  conflictResolution : Resolution := .ask
  applyToAll : Bool := false
  status : SyncStatus := .disconnected
  rootId : Option Str := none
  hasSocket : Bool := false
  deriving DecidableEq, Repr

/-- `Set.add` (no duplicates). -/
def addSet (l : List Str) (x : Str) : List Str :=
  if x ∈ l then l else l ++ [x]

/-- `acquireLock(path)`: synchronous test-and-set on `syncLock`; returns
`false` (and changes nothing) when the path is already locked. -/
def acquireLock (st : EngineState) (path : Str) : Bool × EngineState :=
  if path ∈ st.syncLock then (false, st)
  else (true, { st with syncLock := st.syncLock ++ [path] })

/-- `releaseLock(path)`: `syncLock.delete(path)`. -/
def releaseLock (st : EngineState) (path : Str) : EngineState :=
  { st with syncLock := st.syncLock.erase path }

/-- `shouldPropagate(action, path, content)` together with its effect on
`this.fileCache` (returned as the second component): an equal hash returns
`false` before touching the cache; a change within `DEBOUNCE_DELAY` of the
cached timestamp refreshes the cache entry and returns `false`; otherwise
the cache entry is refreshed and the event propagates. -/
def shouldPropagate (fileCache : List (Str × FileCache)) (now : Nat)
    (path : Str) (content : Option Str) : Bool × List (Str × FileCache) :=
  let newHash := hashContent content
  match lookupA fileCache path with
  | some cache =>
    if cache.hash = newHash then (false, fileCache)
    else if now - cache.timestamp < DEBOUNCE_DELAY then
      (false, setA fileCache path ⟨newHash, now⟩)
    else (true, setA fileCache path ⟨newHash, now⟩)
  | none => (true, setA fileCache path ⟨newHash, now⟩)

/-- `relativePath.substring(0, relativePath.lastIndexOf('/') + 1) || '/'`. -/
def parentPathOf (p : Str) : Str :=
  let pre := (p.reverse.dropWhile (· ≠ '/')).reverse
  if pre = [] then ['/'] else pre

/-- `relativePath.split('/').pop()`. -/
def baseNameOf (p : Str) : Str :=
  (p.reverse.takeWhile (· ≠ '/')).reverse

/-- The `textExtensions` allow-list of `SyncEngine.isTextFile`. -/
def textExtensions : List Str :=
  [".tex".toList, ".bib".toList, ".cls".toList, ".sty".toList, ".txt".toList,
   ".md".toList, ".rst".toList, ".json".toList, ".xml".toList, ".yaml".toList,
   ".yml".toList, ".csv".toList, ".tsv".toList, ".gitignore".toList,
   ".latexmkrc".toList, "makefile".toList, ".leafignore".toList]

/-- `isTextFile(filename)`:
`textExtensions.some(ext => lower.endsWith(ext) || lower === ext.slice(1))`. -/
def isTextFile (filename : Str) : Bool :=
  let lower := filename.map Char.toLower
  textExtensions.any fun ext => ext.isSuffixOf lower || lower = ext.drop 1

/-! ## Handler embeddings

Each handler of `SyncEngine` is a function from the engine state (plus an
oracle record supplying the results of its asynchronous I/O) to the new
engine state and the list of outward effects it performed, in order.
The ignore predicate (`this.ignoreParser.shouldIgnore`, an external
collaborator per the spec) is passed in as a function `Str → Bool`;
`shouldSync p = !ignore p`. -/

/-- Outward I/O performed by a handler. -/
inductive Effect where
  | fsWrite (path : Str) (content : Str)
  | fsCreateDir (path : Str)
  | fsRename (oldPath newPath : Str)
  | fsDelete (path : Str)
  | apiAddDoc (parentId : Option Str) (name : Str)
  | apiAddFolder (parentId : Option Str) (name : Str)
  | apiUploadFile (parentId : Option Str) (name : Str) (content : Str)
  | apiDeleteEntity (type : EntryType) (id : Str)
  | socketApplyOtUpdate (docId : Str) (ops : List Op) (v : Nat)
  | socketJoinDoc (docId : Str)
  | socketLeaveDoc (docId : Str)
  deriving DecidableEq, Repr

/-- `DocumentUpdate` (the fields `handleRemoteFileChanged` reads). -/
structure DocumentUpdate where
  doc : Str
  op : Option (List Op) := none
  v : Nat := 0
  deriving DecidableEq, Repr

/-- I/O oracle for `handleRemoteFileChanged`: the result of reading the
local file (`none` models any read failure, which the handler treats as
empty content / `undefined` bytes), whether the `writeFile` call throws,
and `Date.now()`. -/
structure RemoteChangeIO where
  read : Option Str := none
  writeFails : Bool := false
  now : Nat := 0

/-- The new text computed by the op-application loop of
`handleRemoteFileChanged` (a missing `update.op` leaves the text alone). -/
def appliedContent (update : DocumentUpdate) (localContent : Str) : Str :=
  match update.op with
  | some ops => applyOps ops localContent
  | none => localContent

/-- `handleRemoteFileChanged(update)`: look up the doc, skip if not a doc /
ignored / locked; read local bytes (any failure ⇒ empty text, `undefined`
bytes); apply the ops in order; write to disk only when the resulting bytes
differ from the current local bytes (`!contentEquals(localBytes,
contentBytes)`); update `baseContent` and `fileCache`; release the lock in
`finally`.  A failing write skips the cache updates and leaves the status
at `pulling` (the `catch` only logs) but still releases the lock. -/
def handleRemoteFileChanged (ignore : Str → Bool) (st : EngineState)
    (update : DocumentUpdate) (io : RemoteChangeIO) : EngineState × List Effect :=
  match lookupA st.fileTree update.doc with
  | none => (st, [])
  | some entry =>
    if entry.type ≠ EntryType.doc then (st, [])
    else if ignore entry.path then (st, [])
    else if entry.path ∈ st.syncLock then (st, [])
    else
      let st1 := { st with syncLock := st.syncLock ++ [entry.path] }
      let localContent := io.read.getD []
      let newContent := appliedContent update localContent
      if contentEquals io.read (some newContent) then
        let st2 := { st1 with
          baseContent := setA st1.baseContent entry.path newContent,
          fileCache := setA st1.fileCache entry.path
            ⟨hashContent (some newContent), io.now⟩,
          status := .idle }
        (releaseLock st2 entry.path, [])
      else
        let st2 := { st1 with status := .pulling }
        if io.writeFails then
          (releaseLock st2 entry.path, [.fsWrite entry.path newContent])
        else
          let st3 := { st2 with
            baseContent := setA st2.baseContent entry.path newContent,
            fileCache := setA st2.fileCache entry.path
              ⟨hashContent (some newContent), io.now⟩,
            status := .idle }
          (releaseLock st3 entry.path, [.fsWrite entry.path newContent])

/-- I/O oracle for `handleRemoteFileCreated`: the fetched remote content
(`none` models an unsuccessful `getDocContent`/`getFile` result, after
which `if (content)` skips the write and cache updates), whether the
`joinDoc` for a new doc succeeds (its errors are ignored), and
`Date.now()`. -/
structure RemoteCreateIO where
  fetch : Option Str := none
  joinOk : Bool := true
  fsFails : Bool := false
  now : Nat := 0

/-- The child path computed by `handleRemoteFileCreated`: parent path from
the index (missing parent ⇒ `'/'`) plus the entity name, with a trailing
slash for folders. -/
def remoteCreatedPath (st : EngineState) (parentId : Str) (type : EntryType)
    (entName : Str) : Str :=
  let parentPath := match lookupA st.fileTree parentId with
    | some parent => parent.path
    | none => ['/']
  if type = EntryType.folder then parentPath ++ entName ++ ['/']
  else parentPath ++ entName

/-- `handleRemoteFileCreated(parentId, type, entity)`: compute the child
path from the parent's indexed path (missing parent ⇒ `'/'`), skip if
ignored or locked, register the entry in both index maps, then materialize
locally (create a directory, or fetch and write content and join new docs
for OT updates). -/
def handleRemoteFileCreated (ignore : Str → Bool) (st : EngineState)
    (parentId : Str) (type : EntryType) (entId entName : Str)
    (io : RemoteCreateIO) : EngineState × List Effect :=
  let path := remoteCreatedPath st parentId type entName
  if ignore path then (st, [])
  else if path ∈ st.syncLock then (st, [])
  else
    let entry : FileTreeEntry :=
      { id := entId, type := type, name := entName, path := path,
        parentId := some parentId }
    let st1 := { st with
      syncLock := st.syncLock ++ [path],
      status := .pulling,
      fileTree := setA st.fileTree entId entry,
      fileTreeByPath := setA st.fileTreeByPath path entry }
    if type = EntryType.folder then
      if io.fsFails then (releaseLock st1 path, [.fsCreateDir path])
      else (releaseLock { st1 with status := .idle } path, [.fsCreateDir path])
    else
      let joinStep (st2 : EngineState) (effs : List Effect) : EngineState × List Effect :=
        if type = EntryType.doc ∧ st2.hasSocket ∧ entId ∉ st2.joinedDocs then
          (if io.joinOk then { st2 with joinedDocs := addSet st2.joinedDocs entId }
           else st2,
           effs ++ [Effect.socketJoinDoc entId])
        else (st2, effs)
      match io.fetch with
      | some content =>
        if io.fsFails then
          -- a throwing `writeFile` skips the cache updates, the doc join and
          -- the idle status; the index is already updated, the lock released
          (releaseLock st1 path, [.fsWrite path content])
        else
          let st2 := { st1 with
            baseContent := setA st1.baseContent path content,
            fileCache := setA st1.fileCache path
              ⟨hashContent (some content), io.now⟩ }
          let (st3, effs2) := joinStep st2 [Effect.fsWrite path content]
          (releaseLock { st3 with status := .idle } path, effs2)
      | none =>
        let (st3, effs2) := joinStep st1 []
        (releaseLock { st3 with status := .idle } path, effs2)

/-- I/O oracle for the remote rename / move / remove handlers: whether the
local filesystem operation throws. -/
structure RemoteFsIO where
  fsFails : Bool := false

/-- The new path computed by `handleRemoteFileRenamed`: the old path's
parent plus the new name (trailing slash for folders). -/
def renamedPath (entry : FileTreeEntry) (newName : Str) : Str :=
  if entry.type = EntryType.folder then parentPathOf entry.path ++ newName ++ ['/']
  else parentPathOf entry.path ++ newName

/-- The new path computed by `handleRemoteFileMoved`: the new parent's path
plus the entity's unchanged name (trailing slash for folders). -/
def movedPath (entry newParent : FileTreeEntry) : Str :=
  if entry.type = EntryType.folder then newParent.path ++ entry.name ++ ['/']
  else newParent.path ++ entry.name

/-- `handleRemoteFileRenamed(entityId, newName)`: new path = old path's
parent + new name; update the entry (aliased into both maps), delete the
old path key and set the new one, rename the local file, and migrate any
`baseContent`/`fileCache` entries from the old to the new path.  Note that
no ignore check is performed.  A failing filesystem rename leaves the index
already updated and the caches unmigrated, but the lock (taken on the old
path) is still released. -/
def handleRemoteFileRenamed (_ignore : Str → Bool) (st : EngineState)
    (entityId newName : Str) (io : RemoteFsIO) : EngineState × List Effect :=
  match lookupA st.fileTree entityId with
  | none => (st, [])
  | some entry =>
    let oldPath := entry.path
    let newPath := renamedPath entry newName
    if oldPath ∈ st.syncLock then (st, [])
    else
      let entry' := { entry with name := newName, path := newPath }
      let st1 := { st with
        syncLock := st.syncLock ++ [oldPath],
        status := .pulling,
        fileTree := setA st.fileTree entityId entry',
        fileTreeByPath := setA (delA st.fileTreeByPath oldPath) newPath entry' }
      if io.fsFails then
        (releaseLock st1 oldPath, [.fsRename oldPath newPath])
      else
        let st2 := { st1 with
          baseContent := match lookupA st1.baseContent oldPath with
            | some c => setA (delA st1.baseContent oldPath) newPath c
            | none => st1.baseContent,
          fileCache := match lookupA st1.fileCache oldPath with
            | some c => setA (delA st1.fileCache oldPath) newPath c
            | none => st1.fileCache,
          status := .idle }
        (releaseLock st2 oldPath, [.fsRename oldPath newPath])

/-- Oracle for `handleRemoteFileRemoved`: whether the recursive local
delete throws (the `leaveDoc` errors are ignored by the handler itself). -/
structure RemoteRemoveIO where
  fsFails : Bool := false

/-- `handleRemoteFileRemoved(entityId)`: skip if unknown, ignored or
locked; leave the doc if joined (errors ignored); remove from both index
maps; recursively delete the local path; purge `baseContent`/`fileCache`.
A failing delete leaves the caches unpurged but releases the lock. -/
def handleRemoteFileRemoved (ignore : Str → Bool) (st : EngineState)
    (entityId : Str) (io : RemoteRemoveIO) : EngineState × List Effect :=
  match lookupA st.fileTree entityId with
  | none => (st, [])
  | some entry =>
    if ignore entry.path then (st, [])
    else if entry.path ∈ st.syncLock then (st, [])
    else
      let st1 := { st with syncLock := st.syncLock ++ [entry.path], status := .pulling }
      let (st2, effs) :=
        if entry.type = EntryType.doc ∧ entityId ∈ st1.joinedDocs then
          ({ st1 with joinedDocs := st1.joinedDocs.erase entityId },
           [Effect.socketLeaveDoc entityId])
        else (st1, [])
      let st3 := { st2 with
        fileTree := delA st2.fileTree entityId,
        fileTreeByPath := delA st2.fileTreeByPath entry.path }
      if io.fsFails then
        (releaseLock st3 entry.path, effs ++ [.fsDelete entry.path])
      else
        let st4 := { st3 with
          baseContent := delA st3.baseContent entry.path,
          fileCache := delA st3.fileCache entry.path,
          status := .idle }
        (releaseLock st4 entry.path, effs ++ [.fsDelete entry.path])

/-- `handleRemoteFileMoved(entityId, newParentId)`: recompute the path
under the new parent, update the entry in both maps, and rename locally.
No ignore check and no cache migration are performed (matching the
source). -/
def handleRemoteFileMoved (_ignore : Str → Bool) (st : EngineState)
    (entityId newParentId : Str) (io : RemoteFsIO) : EngineState × List Effect :=
  match lookupA st.fileTree entityId, lookupA st.fileTree newParentId with
  | some entry, some newParent =>
    let oldPath := entry.path
    let newPath := movedPath entry newParent
    if oldPath ∈ st.syncLock then (st, [])
    else
      let entry' := { entry with path := newPath, parentId := some newParentId }
      let st1 := { st with
        syncLock := st.syncLock ++ [oldPath],
        status := .pulling,
        fileTree := setA st.fileTree entityId entry',
        fileTreeByPath := setA (delA st.fileTreeByPath oldPath) newPath entry' }
      if io.fsFails then
        (releaseLock st1 oldPath, [.fsRename oldPath newPath])
      else
        (releaseLock { st1 with status := .idle } oldPath, [.fsRename oldPath newPath])
  | _, _ => (st, [])

/-- Result of a local filesystem read/stat: success, the distinguishable
not-found condition (a transient race, swallowed), or any other error
(rethrown into the handler's catch). -/
inductive ReadRes where
  | ok (s : Str)
  | notFound
  | err
  deriving DecidableEq, Repr

/-- I/O oracle for `handleLocalFileChange`: the file read result,
`Date.now()`, the `joinDoc` answer for a doc push (`none` models a throwing
`joinDoc`; `some (text, v)` is the remote text — `lines.join('\n')` — and
version), and whether `applyOtUpdate` / `uploadFile` throw. -/
structure LocalChangeIO where
  read : ReadRes := .notFound
  now : Nat := 0
  joinDoc : Option (Str × Nat) := none
  applyOtFails : Bool := false
  uploadFails : Bool := false

/-- `handleLocalFileChange(uri)`: drop if ignored; drop if the per-path
lock is held; read (not-found ⇒ quiet exit, other failure ⇒ error status);
echo/debounce check via `shouldPropagate` (which may refresh the cache);
look up the entity (absence ⇒ exit); for docs with a live socket push an OT
update computed by `calculateOps` against the joined remote text (keeping
the doc joined), otherwise upload bytes; update `baseContent`; set idle.
All failures release the lock in `finally`. -/
def handleLocalFileChange (ignore : Str → Bool) (st : EngineState)
    (path : Str) (io : LocalChangeIO) : EngineState × List Effect :=
  if ignore path then (st, [])
  else if path ∈ st.syncLock then (st, [])
  else
    let st1 := { st with syncLock := st.syncLock ++ [path] }
    match io.read with
    | .notFound => (releaseLock st1 path, [])
    | .err => (releaseLock { st1 with status := .error } path, [])
    | .ok content =>
      let (propagate, cache') := shouldPropagate st1.fileCache io.now path (some content)
      let st2 := { st1 with fileCache := cache' }
      if ¬propagate then (releaseLock st2 path, [])
      else
        match lookupA st2.fileTreeByPath path with
        | none => (releaseLock st2 path, [])
        | some entry =>
          let st3 := { st2 with status := .pushing }
          if entry.type = EntryType.doc ∧ st3.hasSocket then
            match io.joinDoc with
            | none =>
              (releaseLock { st3 with status := .error } path,
               [.socketJoinDoc entry.id])
            | some (remoteText, version) =>
              let ops := calculateOps remoteText content
              if ops ≠ [] then
                if io.applyOtFails then
                  (releaseLock { st3 with status := .error } path,
                   [.socketJoinDoc entry.id, .socketApplyOtUpdate entry.id ops version])
                else
                  let st4 := { st3 with
                    joinedDocs := addSet st3.joinedDocs entry.id,
                    baseContent := setA st3.baseContent path content,
                    status := .idle }
                  (releaseLock st4 path,
                   [.socketJoinDoc entry.id, .socketApplyOtUpdate entry.id ops version])
              else
                let st4 := { st3 with
                  joinedDocs := addSet st3.joinedDocs entry.id,
                  baseContent := setA st3.baseContent path content,
                  status := .idle }
                (releaseLock st4 path, [.socketJoinDoc entry.id])
          else
            if io.uploadFails then
              (releaseLock { st3 with status := .error } path,
               [.apiUploadFile entry.parentId entry.name content])
            else
              let st4 := { st3 with
                baseContent := setA st3.baseContent path content,
                status := .idle }
              (releaseLock st4 path,
               [.apiUploadFile entry.parentId entry.name content])

/-- Local stat result for a create event. -/
inductive StatRes where
  | directory
  | fileKind
  | notFound
  | err
  deriving DecidableEq, Repr

/-- I/O oracle for `handleLocalFileCreate`: the stat result, the file read
result, whether the `addFolder`/`addDoc`/`uploadFile` API call throws, and
`Date.now()`. -/
structure LocalCreateIO where
  stat : StatRes := .notFound
  read : ReadRes := .notFound
  apiFails : Bool := false
  now : Nat := 0

/-- `handleLocalFileCreate(uri)`: drop if ignored or locked; stat
(not-found ⇒ quiet exit); directories become remote folders; files are
classified by `isTextFile` and either create an empty remote document
(`addDoc`, no content upload) or upload bytes directly; in the file branch
`baseContent` and `fileCache` are then populated with the read content and
its hash.  The lock is always released. -/
def handleLocalFileCreate (ignore : Str → Bool) (st : EngineState)
    (path : Str) (io : LocalCreateIO) : EngineState × List Effect :=
  if ignore path then (st, [])
  else if path ∈ st.syncLock then (st, [])
  else
    let st1 := { st with syncLock := st.syncLock ++ [path] }
    match io.stat with
    | .notFound => (releaseLock st1 path, [])
    | .err => (releaseLock { st1 with status := .error } path, [])
    | .directory =>
      let st2 := { st1 with status := .pushing }
      let parentId := match lookupA st2.fileTreeByPath (parentPathOf path) with
        | some parent => some parent.id
        | none => st2.rootId
      let name := baseNameOf path
      if io.apiFails then
        (releaseLock { st2 with status := .error } path, [.apiAddFolder parentId name])
      else
        (releaseLock { st2 with status := .idle } path, [.apiAddFolder parentId name])
    | .fileKind =>
      let st2 := { st1 with status := .pushing }
      let parentId := match lookupA st2.fileTreeByPath (parentPathOf path) with
        | some parent => some parent.id
        | none => st2.rootId
      let name := baseNameOf path
      match io.read with
      | .notFound => (releaseLock st2 path, [])
      | .err => (releaseLock { st2 with status := .error } path, [])
      | .ok content =>
        let eff := if isTextFile name then Effect.apiAddDoc parentId name
                   else Effect.apiUploadFile parentId name content
        if io.apiFails then
          (releaseLock { st2 with status := .error } path, [eff])
        else
          let st3 := { st2 with
            baseContent := setA st2.baseContent path content,
            fileCache := setA st2.fileCache path
              ⟨hashContent (some content), io.now⟩,
            status := .idle }
          (releaseLock st3 path, [eff])

/-- I/O oracle for `handleLocalFileDelete`: whether `deleteEntity`
throws. -/
structure LocalDeleteIO where
  apiFails : Bool := false

/-- `handleLocalFileDelete(uri)`: drop if ignored or locked; look up the
entity (absence ⇒ exit); issue the remote delete by kind and identity; then
purge the entry from both index maps and both caches.  A throwing API call
leaves the index untouched but still releases the lock. -/
def handleLocalFileDelete (ignore : Str → Bool) (st : EngineState)
    (path : Str) (io : LocalDeleteIO) : EngineState × List Effect :=
  if ignore path then (st, [])
  else if path ∈ st.syncLock then (st, [])
  else
    let st1 := { st with syncLock := st.syncLock ++ [path] }
    match lookupA st1.fileTreeByPath path with
    | none => (releaseLock st1 path, [])
    | some entry =>
      let st2 := { st1 with status := .pushing }
      if io.apiFails then
        (releaseLock { st2 with status := .error } path,
         [.apiDeleteEntity entry.type entry.id])
      else
        let st3 := { st2 with
          fileTree := delA st2.fileTree entry.id,
          fileTreeByPath := delA st2.fileTreeByPath path,
          baseContent := delA st2.baseContent path,
          fileCache := delA st2.fileCache path,
          status := .idle }
        (releaseLock st3 path, [.apiDeleteEntity entry.type entry.id])

end LocalLeaf

namespace LocalLeaf

/-! ## Index construction (`buildFileTree`, `buildFileTreeFromEntities`)
and the index-mutation language for the bijection invariant -/

/-- The base64 alphabet of Node's `Buffer.toString('base64')`. -/
def base64Alphabet : Str :=
  "ABCDEFGHIJKLMNOPQRSTUVWXYZabcdefghijklmnopqrstuvwxyz0123456789+/".toList

/-- Alphabet character for a 6-bit group. -/
def b64c (n : Nat) : Char := base64Alphabet.getD n 'A'

/-- `Buffer.toString('base64')` over raw bytes. -/
def base64 : List Nat → Str
  | [] => []
  | [b1] => [b64c (b1 / 4), b64c (b1 % 4 * 16), '=', '=']
  | [b1, b2] => [b64c (b1 / 4), b64c (b1 % 4 * 16 + b2 / 16), b64c (b2 % 16 * 4), '=']
  | b1 :: b2 :: b3 :: rest =>
    b64c (b1 / 4) :: b64c (b1 % 4 * 16 + b2 / 16) :: b64c (b2 % 16 * 4 + b3 / 64) ::
      b64c (b3 % 64) :: base64 rest

/-- The pseudo-id of `buildFileTreeFromEntities`:
`Buffer.from(path).toString('base64').replace(/[^a-zA-Z0-9]/g, '').substring(0, 24)`.
Paths are modelled as ASCII, where the UTF-8 byte of a character is its code
point (`Char.toNat`). -/
def pseudoId (path : Str) : Str :=
  ((base64 (path.map Char.toNat)).filter fun c => c.isAlpha || c.isDigit).take 24

/-- One element of the flat entity list returned by the HTTP fallback
(`getProjectEntities`): a path (without leading slash) and a type string. -/
structure FlatEntity where
  path : Str
  type : Str
  deriving DecidableEq, Repr

/-- One loop iteration of `buildFileTreeFromEntities`: prefix the path with
`'/'`, derive name and pseudo-id, default the kind to binary file unless
the type string is `'folder'` or `'doc'`, and append `'/'` to folder paths.
(The `parentPath` computed in the source loop is never used.) -/
def flatEntry (ent : FlatEntity) : FileTreeEntry :=
  let path := '/' :: ent.path
  let name := baseNameOf path
  let id := pseudoId path
  { id := id,
    type := if ent.type = "folder".toList then .folder
            else if ent.type = "doc".toList then .doc else .file,
    name := name,
    path := if ent.type = "folder".toList then path ++ ['/'] else path,
    parentId := none }

/-- `buildFileTreeFromEntities(entities)`: clear both maps, then register
every entity in both (the source interleaves the two `set` calls per
entity; folding each map over the same entry sequence yields the same final
maps). -/
def buildFileTreeFromEntities (st : EngineState) (entities : List FlatEntity) :
    EngineState :=
  let entries := entities.map flatEntry
  { st with
    fileTree := entries.foldl (fun m e => setA m e.id e) [],
    fileTreeByPath := entries.foldl (fun m e => setA m e.path e) [] }

/-- A doc or file-ref node of the remote project snapshot. -/
structure DocRef where
  id : Str
  name : Str
  deriving DecidableEq, Repr

/-- A folder node of the remote project snapshot (`FolderEntity`). -/
inductive RemoteFolder where
  | mk (id name : Str) (docs fileRefs : List DocRef) (folders : List RemoteFolder)

mutual

/-- The entries registered by `buildFileTree`'s `traverse`, in the order of
its `set` calls: the folder itself (the root contributes the entry
`('', '/')`), then its docs, then its file refs, then its subfolders
recursively. -/
def entriesOfFolder : RemoteFolder → Str → Option Str → Bool → List FileTreeEntry
  | .mk fid fname docs fileRefs folders, parentPath, parentId, isRoot =>
    let folderPath := if isRoot then ['/'] else parentPath ++ fname ++ ['/']
    let folderEntry : FileTreeEntry :=
      if isRoot then
        { id := fid, type := .folder, name := [], path := ['/'], parentId := none }
      else
        { id := fid, type := .folder, name := fname, path := folderPath,
          parentId := parentId }
    let docEntries := docs.map fun d =>
      ({ id := d.id, type := .doc, name := d.name, path := folderPath ++ d.name,
         parentId := some fid } : FileTreeEntry)
    let fileEntries := fileRefs.map fun f =>
      ({ id := f.id, type := .file, name := f.name, path := folderPath ++ f.name,
         parentId := some fid } : FileTreeEntry)
    folderEntry :: (docEntries ++ fileEntries ++
      entriesOfFolders folders folderPath fid)

/-- Subfolder traversal of `buildFileTree`. -/
def entriesOfFolders : List RemoteFolder → Str → Str → List FileTreeEntry
  | [], _, _ => []
  | f :: fs, folderPath, fid =>
    entriesOfFolder f folderPath (some fid) false ++
      entriesOfFolders fs folderPath fid

end

/-- `buildFileTree(project)`: clear both maps and traverse
`project.rootFolder[0]` (when present) as the root, registering every entry
in both maps. -/
def buildFileTree (st : EngineState) (rootFolder : List RemoteFolder) :
    EngineState :=
  match rootFolder with
  | [] => { st with fileTree := [], fileTreeByPath := [] }
  | root :: _ =>
    let entries := entriesOfFolder root [] none true
    { st with
      fileTree := entries.foldl (fun m e => setA m e.id e) [],
      fileTreeByPath := entries.foldl (fun m e => setA m e.path e) [] }

/-- The index mutations named by the path-invariant claim: build from a
full tree or a flat entity list, remote create/rename/move/remove, and
local delete.  Each handler constructor carries the I/O oracle of the
corresponding handler. -/
inductive IndexMutation where
  | buildTree (rootFolder : List RemoteFolder)
  | buildFlat (entities : List FlatEntity)
  | remoteCreate (parentId : Str) (type : EntryType) (entId entName : Str)
      (io : RemoteCreateIO)
  | remoteRename (entityId newName : Str) (io : RemoteFsIO)
  | remoteMove (entityId newParentId : Str) (io : RemoteFsIO)
  | remoteRemove (entityId : Str) (io : RemoteRemoveIO)
  | localDelete (path : Str) (io : LocalDeleteIO)

/-- Apply one index mutation through the corresponding engine operation. -/
def applyIndexMutation (ig : Str → Bool) (st : EngineState) :
    IndexMutation → EngineState
  | .buildTree roots => buildFileTree st roots
  | .buildFlat ents => buildFileTreeFromEntities st ents
  | .remoteCreate p t eId eN io => (handleRemoteFileCreated ig st p t eId eN io).1
  | .remoteRename eId nN io => (handleRemoteFileRenamed ig st eId nN io).1
  | .remoteMove eId nP io => (handleRemoteFileMoved ig st eId nP io).1
  | .remoteRemove eId io => (handleRemoteFileRemoved ig st eId io).1
  | .localDelete p io => (handleLocalFileDelete ig st p io).1

/-- Apply a sequence of index mutations in order. -/
def applyIndexMutations (ig : Str → Bool) (st : EngineState)
    (ms : List IndexMutation) : EngineState :=
  ms.foldl (applyIndexMutation ig) st

/-- The bijection invariant of the Entity Tree Index: both maps have
duplicate-free keys, every id-map binding is keyed by its entry's identity
and its entry is found at its path in the path-map, and symmetrically for
the path-map.  (In particular no two distinct identities map to the same
path.) -/
def IndexConsistent (st : EngineState) : Prop :=
  (st.fileTree.map Prod.fst).Nodup ∧
  (st.fileTreeByPath.map Prod.fst).Nodup ∧
  (∀ p ∈ st.fileTree, p.2.id = p.1 ∧ lookupA st.fileTreeByPath p.2.path = some p.2) ∧
  (∀ p ∈ st.fileTreeByPath, p.2.path = p.1 ∧ lookupA st.fileTree p.2.id = some p.2)

instance (st : EngineState) : Decidable (IndexConsistent st) := by
  unfold IndexConsistent
  infer_instance

/-- Freshness/no-collision side conditions under which a mutation preserves
the bijection invariant: builds must derive duplicate-free ids and paths; a
remote create must carry an id not yet in the id-map and a path not yet in
the path-map; a rename or move must not land on a path occupied by a
*different* entity.  Removals and deletes need no condition. -/
def WfMutation (st : EngineState) : IndexMutation → Prop
  | .buildTree roots =>
    match roots with
    | [] => True
    | root :: _ =>
      ((entriesOfFolder root [] none true).map FileTreeEntry.id).Nodup ∧
      ((entriesOfFolder root [] none true).map FileTreeEntry.path).Nodup
  | .buildFlat ents =>
    ((ents.map flatEntry).map FileTreeEntry.id).Nodup ∧
    ((ents.map flatEntry).map FileTreeEntry.path).Nodup
  | .remoteCreate parentId type entId entName _ =>
    lookupA st.fileTree entId = none ∧
    lookupA st.fileTreeByPath (remoteCreatedPath st parentId type entName) = none
  | .remoteRename entityId newName _ =>
    ∀ e, lookupA st.fileTree entityId = some e →
      ∀ e', lookupA st.fileTreeByPath (renamedPath e newName) = some e' →
        e'.id = entityId
  | .remoteMove entityId newParentId _ =>
    ∀ e, lookupA st.fileTree entityId = some e →
      ∀ q, lookupA st.fileTree newParentId = some q →
        ∀ e', lookupA st.fileTreeByPath (movedPath e q) = some e' →
          e'.id = entityId
  | .remoteRemove _ _ => True
  | .localDelete _ _ => True

/-- Chained well-formedness of a mutation sequence: each mutation is
well-formed against the state produced by its predecessors. -/
def WfMutations (ig : Str → Bool) (st : EngineState) : List IndexMutation → Prop
  | [] => True
  | m :: ms => WfMutation st m ∧ WfMutations ig (applyIndexMutation ig st m) ms

/-! ## Reconciliation (`pullAll`) -/

/-- A user answer to one conflict prompt.  The source's two-step dialog
(first `Diff | Remote | Local | All Remote | All Local`, then — after the
diff view — `Use Remote | Keep Local | Skip`) always ends in one of these
outcomes; dismissing either dialog is the `switch` default, `skip`, which
is also what an exhausted choice stream models. -/
inductive UserChoice
  | chooseRemote
  | chooseLocal
  | chooseSkip
  | chooseAllRemote
  | chooseAllLocal
  deriving DecidableEq, Repr

/-- `askConflictResolution`: a sticky "apply to all" choice short-circuits
the prompt; otherwise the next user choice is consumed, with the
`All Remote` / `All Local` answers additionally setting the sticky state. -/
def askResolution (eng : EngineState) (choices : List UserChoice) :
    Resolution × EngineState × List UserChoice :=
  if eng.applyToAll ∧ eng.conflictResolution ≠ Resolution.ask then
    (eng.conflictResolution, eng, choices)
  else
    match choices with
    | [] => (.skip, eng, [])
    | c :: rest =>
      match c with
      | .chooseRemote => (.useRemote, eng, rest)
      | .chooseLocal => (.useLocal, eng, rest)
      | .chooseSkip => (.skip, eng, rest)
      | .chooseAllRemote =>
        (.useRemote,
         { eng with conflictResolution := .useRemote, applyToAll := true }, rest)
      | .chooseAllLocal =>
        (.useLocal,
         { eng with conflictResolution := .useLocal, applyToAll := true }, rest)

/-- State threaded through one `pullAll` pass: the engine, the remote store
(entity id → current remote text, consulted by `joinDoc`/`getDocContent`/
`getFile` and updated by `applyOtUpdate`/`uploadFile`; a missing id models
a failed fetch, after which the entry is skipped silently), the local
filesystem (path → bytes), the remaining user choices, the three counters
reported at the end, and the `writeFile` calls performed, in order. -/
structure PullState where
  engine : EngineState
  remote : List (Str × Str)
  fs : List (Str × Str)
  choices : List UserChoice
  downloaded : Nat
  skipped : Nat
  conflicts : Nat
  writes : List (Str × Str)
  deriving Repr

/-- The `downloadFile` closure of `pullAll` for one entry: folders get a
local directory (`createDirectory` is ensure-exists, not a file write);
ignored paths are skipped; the remote content is fetched (docs via
join/leave or HTTP, binaries via HTTP — both read the remote store; a
failed fetch returns silently); a present local file with differing bytes
is a conflict, resolved to `skip` (leave everything, count it),
`useLocal` (push the local bytes — docs submit the `calculateOps` diff as
an OT update, others upload raw bytes — and update caches) or `useRemote`
(fall through); finally the remote content is written **only if it differs
from the current local bytes**, otherwise only the caches are updated. -/
def pullAllStep (ig : Str → Bool) (now : Nat) (ps : PullState)
    (entry : FileTreeEntry) : PullState :=
  if entry.type = EntryType.folder then ps
  else if ig entry.path then ps
  else
    match lookupA ps.remote entry.id with
    | none => ps
    | some remoteContent =>
      let finish (eng : EngineState) (choices : List UserChoice)
          (conflicts : Nat) : PullState :=
        let localContent := lookupA ps.fs entry.path
        if contentEquals localContent (some remoteContent) then
          { ps with
            engine := { eng with
              baseContent := setA eng.baseContent entry.path remoteContent,
              fileCache := setA eng.fileCache entry.path
                ⟨hashContent (some remoteContent), now⟩ },
            choices := choices, conflicts := conflicts }
        else
          { ps with
            engine := { eng with
              baseContent := setA eng.baseContent entry.path remoteContent,
              fileCache := setA eng.fileCache entry.path
                ⟨hashContent (some remoteContent), now⟩ },
            fs := setA ps.fs entry.path remoteContent,
            writes := ps.writes ++ [(entry.path, remoteContent)],
            downloaded := ps.downloaded + 1,
            choices := choices, conflicts := conflicts }
      match lookupA ps.fs entry.path with
      | some localBytes =>
        if localBytes ≠ remoteContent then
          -- conflict
          let conflicts := ps.conflicts + 1
          let (res, eng', choices') := askResolution ps.engine ps.choices
          match res with
          | .skip =>
            { ps with
              engine := eng'
              choices := choices'
              conflicts := conflicts
              skipped := ps.skipped + 1 }
          | .useLocal =>
            let remote' :=
              if entry.type = EntryType.doc ∧ ps.engine.hasSocket then
                setA ps.remote entry.id
                  (applyOps (calculateOps remoteContent localBytes) remoteContent)
              else setA ps.remote entry.id localBytes
            { ps with
              engine := { eng' with
                joinedDocs :=
                  if entry.type = EntryType.doc ∧ ps.engine.hasSocket then
                    addSet eng'.joinedDocs entry.id
                  else eng'.joinedDocs,
                baseContent := setA eng'.baseContent entry.path localBytes,
                fileCache := setA eng'.fileCache entry.path
                  ⟨hashContent (some localBytes), now⟩ },
              remote := remote'
              choices := choices'
              conflicts := conflicts }
          | _ => finish eng' choices' conflicts
        else finish ps.engine ps.choices ps.conflicts
      | none => finish ps.engine ps.choices ps.conflicts

/-- `pullAll()`: reset the sticky conflict state, set status `pulling`,
walk every entry of the file tree in order, and set status `idle`.
(Remote pushes inside the pass are modelled as succeeding; a `pullAll`
that throws propagates to the caller and is outside this model.) -/
def pullAll (ig : Str → Bool) (now : Nat) (eng : EngineState)
    (remote fs : List (Str × Str)) (choices : List UserChoice) : PullState :=
  let eng1 := { eng with conflictResolution := .ask, applyToAll := false,
                         status := .pulling }
  let ps0 : PullState := ⟨eng1, remote, fs, choices, 0, 0, 0, []⟩
  let ps := (eng1.fileTree.map Prod.snd).foldl (pullAllStep ig now) ps0
  { ps with engine := { ps.engine with status := .idle } }

/-- An index entry is "settled" w.r.t. a remote store and a local
filesystem: if it is not a folder and not ignored, the local bytes at its
path equal the remote content under its id (when that fetch succeeds).
After a completed `pullAll` pass that skipped no conflict, every entry is
settled, which is what makes a second pass write- and conflict-free. -/
def goodEntry (ig : Str → Bool) (e : FileTreeEntry)
    (remote fs : List (Str × Str)) : Prop :=
  e.type ≠ EntryType.folder → ig e.path = false →
    ∀ rc, lookupA remote e.id = some rc → lookupA fs e.path = some rc

/-! ## Connection manager (`src/api/socketio.ts`) -/

/-- The two historical connection schemes (`'v1' | 'v2'`). -/
inductive ConnectionScheme | v1 | v2
  deriving DecidableEq, Repr

/-- Outcome oracle for one `connect` attempt: whether the socket handshake
(the `'connect'` event) completes within the 5s `waitForHandshake` timeout
under each scheme, and the join outcome per scheme — `joinV1` is the
`joinProject` emit raced against `connectionRejected` and the 5s timeout
(`none` = rejection or timeout), `joinV2` is the `joinProjectResponse`
event raced against the 5s timeout (`none` = timeout); `some n` is the
project snapshot (abstracted to a token). -/
structure ConnectOracle where
  handshake : ConnectionScheme → Bool
  joinV1 : Option Nat := none
  joinV2 : Option Nat := none

/-- Connection failures surfaced by `joinProject`. -/
inductive ConnErr
  | handshakeTimeout
  | joinFailed
  | outOfFuel
  deriving DecidableEq, Repr

/-- `SocketIOAPI.joinProject()`, with the source's retry-by-recursion
(`this.reinit('v2'); return this.joinProject()`) modelled by an explicit
fuel parameter; the returned list records the schemes attempted in order.
In `v1`, a handshake timeout or a join rejection/timeout tears the socket
down, switches to `v2` (`reinit`) and recurses; in `v2` both failures
throw with no further recursion (the `this.scheme === 'v1'` guards). -/
def joinProjectAux : Nat → ConnectionScheme → ConnectOracle →
    Except ConnErr Nat × List ConnectionScheme
  | 0, _, _ => (Except.error .outOfFuel, [])
  | fuel + 1, s, o =>
    if o.handshake s = false then
      match s with
      | .v1 =>
        let r := joinProjectAux fuel .v2 o
        (r.1, .v1 :: r.2)
      | .v2 => (Except.error .handshakeTimeout, [.v2])
    else
      match s with
      | .v1 =>
        match o.joinV1 with
        | some p => (Except.ok p, [.v1])
        | none =>
          let r := joinProjectAux fuel .v2 o
          (r.1, .v1 :: r.2)
      | .v2 =>
        match o.joinV2 with
        | some p => (Except.ok p, [.v2])
        | none => (Except.error .joinFailed, [.v2])

/-- A connect attempt starts in scheme `v1` (the constructor's initial
scheme); fuel 2 is exactly one retry. -/
def joinProject (o : ConnectOracle) : Except ConnErr Nat × List ConnectionScheme :=
  joinProjectAux 2 .v1 o

/-- Which callbacks a `SocketEventHandlers` object provides (those are the
ones `registerHandlers` attaches `socket.on` listeners for). -/
structure HandlerFlags where
  onFileCreated : Bool := false
  onFileRenamed : Bool := false
  onFileRemoved : Bool := false
  onFileMoved : Bool := false
  onFileChanged : Bool := false
  onUserCursorUpdated : Bool := false
  onUserDisconnected : Bool := false
  onRootDocUpdated : Bool := false
  onCompilerUpdated : Bool := false
  deriving DecidableEq, Repr

/-- A listener attached to the *current* socket object: either one of the
internal connection listeners of `setupInternalHandlers` (which dispatch
dynamically to every object in `this.handlers`, so they survive handler
re-registration) or a per-event listener attached by `registerHandlers`
on behalf of handler object number `idx`. -/
inductive Listener
  | internal (event : Str)
  | forHandler (idx : Nat) (event : Str)
  deriving DecidableEq, Repr

/-- `setupInternalHandlers`: the listeners attached to every fresh socket
(`connect`, `connect_failed`, `forceDisconnect`, `error`, `disconnect`,
`connectionRejected`, `connectionAccepted`, plus `joinProjectResponse`
under the v2 scheme). -/
def internalListeners (scheme : ConnectionScheme) : List Listener :=
  [.internal "connect".toList, .internal "connect_failed".toList,
   .internal "forceDisconnect".toList, .internal "error".toList,
   .internal "disconnect".toList, .internal "connectionRejected".toList,
   .internal "connectionAccepted".toList] ++
    (if scheme = ConnectionScheme.v2
     then [Listener.internal "joinProjectResponse".toList] else [])

/-- The `socket.on` registrations `registerHandlers` performs for one
handler object, in source order. -/
def handlerListeners (idx : Nat) (h : HandlerFlags) : List Listener :=
  (if h.onFileCreated then
    [Listener.forHandler idx "reciveNewDoc".toList,
     Listener.forHandler idx "reciveNewFile".toList,
     Listener.forHandler idx "reciveNewFolder".toList] else []) ++
  (if h.onFileRenamed then [Listener.forHandler idx "reciveEntityRename".toList] else []) ++
  (if h.onFileRemoved then [Listener.forHandler idx "removeEntity".toList] else []) ++
  (if h.onFileMoved then [Listener.forHandler idx "reciveEntityMove".toList] else []) ++
  (if h.onFileChanged then [Listener.forHandler idx "otUpdateApplied".toList] else []) ++
  (if h.onUserCursorUpdated then
    [Listener.forHandler idx "clientTracking.clientUpdated".toList] else []) ++
  (if h.onUserDisconnected then
    [Listener.forHandler idx "clientTracking.clientDisconnected".toList] else []) ++
  (if h.onRootDocUpdated then [Listener.forHandler idx "rootDocUpdated".toList] else []) ++
  (if h.onCompilerUpdated then [Listener.forHandler idx "compilerUpdated".toList] else [])

/-- The connection-manager state the reconnection claims are about: the
current scheme, the registered handler objects (`this.handlers`), the
listeners attached to the *current* socket object, and `_connected`. -/
structure SocketState where
  scheme : ConnectionScheme := .v1
  handlers : List HandlerFlags := []
  listeners : List Listener := []
  connected : Bool := false
  deriving DecidableEq, Repr

/-- `init()`: a fresh socket is created and `setupEmit`/
`setupInternalHandlers` run on it — the new socket carries only the
internal listeners; `this.handlers` is untouched (and *not* re-attached). -/
def initSocket (st : SocketState) : SocketState :=
  { st with listeners := internalListeners st.scheme }

/-- `registerHandlers(handlers)`: push the object and attach its per-event
listeners to the current socket. -/
def registerHandlersS (st : SocketState) (h : HandlerFlags) : SocketState :=
  { st with handlers := st.handlers ++ [h],
            listeners := st.listeners ++ handlerListeners st.handlers.length h }

/-- `reinit(newScheme)`: disconnect the old socket, switch scheme, `init()`
(fresh socket, internal listeners only), then explicitly re-register every
previously registered handler object. -/
def reinitSocket (st : SocketState) (newScheme : ConnectionScheme) : SocketState :=
  let st1 := initSocket { st with scheme := newScheme, handlers := [] }
  st.handlers.foldl registerHandlersS st1

/-- `reconnect()`: a no-op when `_connected`; otherwise rerun `init()`
directly (note: *not* `reinit`). -/
def reconnectSocket (st : SocketState) : SocketState :=
  if st.connected then st else initSocket st

/-- The per-handler listeners of a handler list, with indices starting at
`start` (the shape `reinit`'s re-registration loop produces). -/
def allHandlerListeners (start : Nat) : List HandlerFlags → List Listener
  | [] => []
  | h :: rest => handlerListeners start h ++ allHandlerListeners (start + 1) rest

theorem applyOp_delete_all (s : Str) :
    applyOp s { p := 0, d := some s } = [] := by
  simp [applyOp]

theorem applyOp_insert_at_zero (s t : Str) :
    applyOp s { p := 0, i := some t } = t ++ s := by
  simp [applyOp]

theorem erase_append_singleton (l : List Str) (p : Str)
    (h : p ∉ l) : (l ++ [p]).erase p = l := by
  induction l with
  | nil => simp
  | cons a t ih =>
    simp only [List.mem_cons, not_or] at h
    simp only [List.cons_append, List.erase_cons, beq_iff_eq]
    rw [if_neg (fun hap => h.1 hap.symm), ih h.2]

theorem applyOps_calculateOps_eq (A B : Str) :
    applyOps (calculateOps A B) A = B := by
  unfold calculateOps
  by_cases hAB : A = B
  · simp [hAB, applyOps]
  · simp only [if_neg hAB]
    by_cases hA : A.length > 0
    · by_cases hB : B.length > 0
      · simp [hA, hB, applyOps, applyOp]
      · have hBnil : B = [] := List.length_eq_zero.mp (Nat.eq_zero_of_not_pos hB)
        simp [hA, hB, hBnil, applyOps, applyOp]
    · have hAnil : A = [] := List.length_eq_zero.mp (Nat.eq_zero_of_not_pos hA)
      by_cases hB : B.length > 0
      · simp [hA, hB, hAnil, applyOps, applyOp]
      · have hBnil : B = [] := List.length_eq_zero.mp (Nat.eq_zero_of_not_pos hB)
        exact absurd (hAnil.trans hBnil.symm) hAB

/-- **C1** (Diff/apply round trip): for every pair of texts `A` and `B`,
applying the op list produced by `calculateOps A B` — strictly in list order,
each position interpreted against the buffer after the earlier ops, i.e. with
the apply semantics of `handleRemoteFileChanged` — to the text `A` yields
exactly the text `B`. -/
theorem calculateOps_applyOps_roundTrip (A B : Str) :
    applyOps (calculateOps A B) A = B :=
  applyOps_calculateOps_eq A B



/-- **C7** counterexample: with a cached entry whose hash matches the new
content's hash but whose timestamp is long stale (0, with `now = 1000000`),
`shouldPropagate` suppresses the event but returns the cache map unchanged:
the cache timestamp is *not* updated to `now`, contradicting the claim that
suppression "updates the cache timestamp without emitting" in the
equal-hash case. -/
theorem shouldPropagate_equalHash_staleTimestamp :
    shouldPropagate [("a".toList, ⟨hashContent (some "x".toList), 0⟩)] 1000000
        "a".toList (some "x".toList) =
      (false, [("a".toList, ⟨hashContent (some "x".toList), 0⟩)]) ∧
    [("a".toList, (⟨hashContent (some "x".toList), 0⟩ : FileCache))] ≠
      setA [("a".toList, ⟨hashContent (some "x".toList), 0⟩)] "a".toList
        ⟨hashContent (some "x".toList), 1000000⟩ := by
  constructor
  · rfl
  · decide

/-- **C7** (amended): the echo/debounce suppression of `shouldPropagate`,
case by case: an equal hash suppresses the event and leaves the cache map
(and hence its timestamp) untouched; a differing hash within
`DEBOUNCE_DELAY` (500ms) of the cached timestamp suppresses the event and
refreshes the cache entry with the new hash and timestamp; otherwise — a
differing hash outside the window, or no cache entry at all — the event
propagates and the cache entry is refreshed. -/
theorem shouldPropagate_characterization
    (m : List (Str × FileCache)) (now : Nat) (path : Str) (content : Option Str) :
    (∀ c, lookupA m path = some c → c.hash = hashContent content →
      shouldPropagate m now path content = (false, m)) ∧
    (∀ c, lookupA m path = some c → c.hash ≠ hashContent content →
      now - c.timestamp < DEBOUNCE_DELAY →
      shouldPropagate m now path content =
        (false, setA m path ⟨hashContent content, now⟩)) ∧
    (∀ c, lookupA m path = some c → c.hash ≠ hashContent content →
      ¬ now - c.timestamp < DEBOUNCE_DELAY →
      shouldPropagate m now path content =
        (true, setA m path ⟨hashContent content, now⟩)) ∧
    (lookupA m path = none →
      shouldPropagate m now path content =
        (true, setA m path ⟨hashContent content, now⟩)) := by
  refine ⟨?_, ?_, ?_, ?_⟩
  · intro c hc hh
    simp [shouldPropagate, hc, hh]
  · intro c hc hh ht
    simp [shouldPropagate, hc, hh, ht]
  · intro c hc hh ht
    simp [shouldPropagate, hc, hh, ht]
  · intro hc
    simp [shouldPropagate, hc]

/-- Witness for `shouldPropagate_characterization`, exercising all four
branches at concrete inputs. -/
theorem shouldPropagate_characterization_witness :
    (shouldPropagate [("a".toList, ⟨hashContent (some "x".toList), 0⟩)] 1000000
        "a".toList (some "x".toList) =
      (false, [("a".toList, ⟨hashContent (some "x".toList), 0⟩)])) ∧
    (shouldPropagate [("a".toList, ⟨0, 700⟩)] 900 "a".toList (some "x".toList) =
      (false, setA [("a".toList, ⟨0, 700⟩)] "a".toList
        ⟨hashContent (some "x".toList), 900⟩)) ∧
    (shouldPropagate [("a".toList, ⟨0, 100⟩)] 900 "a".toList (some "x".toList) =
      (true, setA [("a".toList, ⟨0, 100⟩)] "a".toList
        ⟨hashContent (some "x".toList), 900⟩)) ∧
    (shouldPropagate [] 900 "a".toList (some "x".toList) =
      (true, setA [] "a".toList ⟨hashContent (some "x".toList), 900⟩)) := by
  refine ⟨?_, ?_, ?_, ?_⟩
  · exact (shouldPropagate_characterization _ 1000000 _ _).1 _ rfl (by decide)
  · exact (shouldPropagate_characterization _ 900 _ _).2.1 _ rfl (by decide) (by decide)
  · exact (shouldPropagate_characterization _ 900 _ _).2.2.1 _ rfl (by decide) (by decide)
  · exact (shouldPropagate_characterization _ 900 _ _).2.2.2 rfl

theorem handleRemoteFileChanged_effects (ignore : Str → Bool) (st : EngineState)
    (update : DocumentUpdate) (io : RemoteChangeIO) :
    (handleRemoteFileChanged ignore st update io).2 = [] ∨
    ((handleRemoteFileChanged ignore st update io).2 =
        [Effect.fsWrite
          (match lookupA st.fileTree update.doc with
           | some entry => entry.path
           | none => [])
          (appliedContent update (io.read.getD []))] ∧
      contentEquals io.read (some (appliedContent update (io.read.getD []))) = false) := by
  unfold handleRemoteFileChanged
  cases h : lookupA st.fileTree update.doc with
  | none => simp
  | some entry =>
    simp only [h]
    split_ifs with h1 h2 h3 h4 h5 <;> simp_all

/-- **C2** (flicker-prevention invariant): `handleRemoteFileChanged`
performs a filesystem write only if the bytes resulting from applying the
op list differ from the current local bytes (`contentEquals` is false); in
particular a notification whose applied result equals the current local
content — e.g. an echo of the engine's own prior push — produces no
filesystem write (and indeed no outward effect at all). -/
theorem handleRemoteFileChanged_flickerPrevention (ignore : Str → Bool)
    (st : EngineState) (update : DocumentUpdate) (io : RemoteChangeIO) :
    ((∃ p c, Effect.fsWrite p c ∈ (handleRemoteFileChanged ignore st update io).2) →
      contentEquals io.read (some (appliedContent update (io.read.getD []))) = false) ∧
    (∀ c, io.read = some c → appliedContent update c = c →
      (handleRemoteFileChanged ignore st update io).2 = []) := by
  have h := handleRemoteFileChanged_effects ignore st update io
  constructor
  · rintro ⟨p, c, hmem⟩
    rcases h with h | ⟨heq, hne⟩
    · rw [h] at hmem; simp at hmem
    · exact hne
  · intro c hc happ
    rcases h with h | ⟨heq, hne⟩
    · exact h
    · rw [hc] at hne
      simp [happ, contentEquals] at hne

/-- Witness for `handleRemoteFileChanged_flickerPrevention`: an echo update
(no ops, local content `"x"`) produces no effects; a genuine insert against
a missing local file does write, and the theorem yields the byte
difference. -/
theorem handleRemoteFileChanged_flickerPrevention_witness :
    (handleRemoteFileChanged (fun _ => false)
        { fileTree := [("d".toList, ⟨"d".toList, .doc, "a".toList, "/a".toList, none⟩)] }
        ⟨"d".toList, none, 0⟩ { read := some "x".toList }).2 = [] ∧
    contentEquals (none : Option Str)
      (some (appliedContent ⟨"d".toList, some [⟨0, some "y".toList, none⟩], 0⟩
        ((none : Option Str).getD []))) = false := by
  constructor
  · exact (handleRemoteFileChanged_flickerPrevention (fun _ => false)
      { fileTree := [("d".toList, ⟨"d".toList, .doc, "a".toList, "/a".toList, none⟩)] }
      ⟨"d".toList, none, 0⟩ { read := some "x".toList }).2 "x".toList rfl rfl
  · exact (handleRemoteFileChanged_flickerPrevention (fun _ => false)
      { fileTree := [("d".toList, ⟨"d".toList, .doc, "a".toList, "/a".toList, none⟩)] }
      ⟨"d".toList, some [⟨0, some "y".toList, none⟩], 0⟩ { read := none }).1
      ⟨"/a".toList, "y".toList, by decide⟩

/-- **C10** (implicit): the remote rename handler never consults the ignore
predicate — its result is the same for every ignore predicate, so it
updates the index, renames the local file and migrates caches even when the
old or new path is ignored — whereas the remote created, removed and
content-changed handlers each return with no state change and no effects
when the affected path is ignored. -/
theorem handleRemoteFileRenamed_ignores_ignorePredicate :
    (∀ (ig ig' : Str → Bool) (st : EngineState) (entityId newName : Str) (io : RemoteFsIO),
      handleRemoteFileRenamed ig st entityId newName io =
        handleRemoteFileRenamed ig' st entityId newName io) ∧
    (∀ (ig : Str → Bool) (st : EngineState) (parentId : Str) (type : EntryType)
        (entId entName : Str) (io : RemoteCreateIO),
      ig (remoteCreatedPath st parentId type entName) = true →
      handleRemoteFileCreated ig st parentId type entId entName io = (st, [])) ∧
    (∀ (ig : Str → Bool) (st : EngineState) (entityId : Str) (io : RemoteRemoveIO)
        (entry : FileTreeEntry),
      lookupA st.fileTree entityId = some entry → ig entry.path = true →
      handleRemoteFileRemoved ig st entityId io = (st, [])) ∧
    (∀ (ig : Str → Bool) (st : EngineState) (update : DocumentUpdate)
        (io : RemoteChangeIO) (entry : FileTreeEntry),
      lookupA st.fileTree update.doc = some entry → ig entry.path = true →
      handleRemoteFileChanged ig st update io = (st, [])) := by
  refine ⟨?_, ?_, ?_, ?_⟩
  · intro ig ig' st entityId newName io
    rfl
  · intro ig st parentId type entId entName io h
    unfold handleRemoteFileCreated
    simp only [h, if_true]
  · intro ig st entityId io entry hl hig
    unfold handleRemoteFileRemoved
    simp only [hl, hig, if_true]
  · intro ig st update io entry hl hig
    unfold handleRemoteFileChanged
    simp only [hl, hig]
    by_cases ht : entry.type ≠ EntryType.doc <;> simp [ht]

/-- Witness for `handleRemoteFileRenamed_ignores_ignorePredicate`:
independence of the rename handler at two opposite predicates, and the
ignored-path no-ops of the other three handlers, at concrete inputs. -/
theorem handleRemoteFileRenamed_ignores_ignorePredicate_witness :
    (handleRemoteFileRenamed (fun _ => true)
        { fileTree := [("d".toList, ⟨"d".toList, .doc, "a".toList, "/a".toList, none⟩)] }
        "d".toList "b".toList {} =
      handleRemoteFileRenamed (fun _ => false)
        { fileTree := [("d".toList, ⟨"d".toList, .doc, "a".toList, "/a".toList, none⟩)] }
        "d".toList "b".toList {}) ∧
    (handleRemoteFileCreated (fun _ => true) {} "p".toList EntryType.doc
        "d".toList "a".toList {} = ({}, [])) ∧
    (handleRemoteFileRemoved (fun _ => true)
        { fileTree := [("d".toList, ⟨"d".toList, .doc, "a".toList, "/a".toList, none⟩)] }
        "d".toList {} =
      ({ fileTree := [("d".toList, ⟨"d".toList, .doc, "a".toList, "/a".toList, none⟩)] }, [])) ∧
    (handleRemoteFileChanged (fun _ => true)
        { fileTree := [("d".toList, ⟨"d".toList, .doc, "a".toList, "/a".toList, none⟩)] }
        ⟨"d".toList, none, 0⟩ {} =
      ({ fileTree := [("d".toList, ⟨"d".toList, .doc, "a".toList, "/a".toList, none⟩)] }, [])) := by
  refine ⟨?_, ?_, ?_, ?_⟩
  · exact handleRemoteFileRenamed_ignores_ignorePredicate.1 _ _ _ _ _ _
  · exact handleRemoteFileRenamed_ignores_ignorePredicate.2.1 _ _ _ _ _ _ _ rfl
  · exact handleRemoteFileRenamed_ignores_ignorePredicate.2.2.1 _ _ _ _ _ rfl rfl
  · exact handleRemoteFileRenamed_ignores_ignorePredicate.2.2.2 _ _ _ _ _ rfl rfl

theorem syncLock_handleLocalFileChange (ig : Str → Bool) (st : EngineState)
    (path : Str) (io : LocalChangeIO) :
    (handleLocalFileChange ig st path io).1.syncLock = st.syncLock := by
  unfold handleLocalFileChange
  by_cases h1 : ig path = true
  · simp [h1]
  · simp only [h1, if_false]
    by_cases h2 : path ∈ st.syncLock
    · simp [h2]
    · simp only [h2, if_false]
      have key : ∀ (x : EngineState), x.syncLock = st.syncLock ++ [path] →
          (releaseLock x path).syncLock = st.syncLock := by
        intro x hx
        simp only [releaseLock, hx]
        exact erase_append_singleton _ _ h2
      repeat' split
      all_goals first | exact key _ rfl | rfl

theorem syncLock_handleLocalFileCreate (ig : Str → Bool) (st : EngineState)
    (path : Str) (io : LocalCreateIO) :
    (handleLocalFileCreate ig st path io).1.syncLock = st.syncLock := by
  unfold handleLocalFileCreate
  by_cases h1 : ig path = true
  · simp [h1]
  · simp only [h1, if_false]
    by_cases h2 : path ∈ st.syncLock
    · simp [h2]
    · simp only [h2, if_false]
      have key : ∀ (x : EngineState), x.syncLock = st.syncLock ++ [path] →
          (releaseLock x path).syncLock = st.syncLock := by
        intro x hx
        simp only [releaseLock, hx]
        exact erase_append_singleton _ _ h2
      repeat' split
      all_goals first | exact key _ rfl | rfl

theorem syncLock_handleLocalFileDelete (ig : Str → Bool) (st : EngineState)
    (path : Str) (io : LocalDeleteIO) :
    (handleLocalFileDelete ig st path io).1.syncLock = st.syncLock := by
  unfold handleLocalFileDelete
  by_cases h1 : ig path = true
  · simp [h1]
  · simp only [h1, if_false]
    by_cases h2 : path ∈ st.syncLock
    · simp [h2]
    · simp only [h2, if_false]
      have key : ∀ (x : EngineState), x.syncLock = st.syncLock ++ [path] →
          (releaseLock x path).syncLock = st.syncLock := by
        intro x hx
        simp only [releaseLock, hx]
        exact erase_append_singleton _ _ h2
      repeat' split
      all_goals first | exact key _ rfl | rfl

theorem syncLock_handleRemoteFileCreated (ig : Str → Bool) (st : EngineState)
    (parentId : Str) (type : EntryType) (entId entName : Str) (io : RemoteCreateIO) :
    (handleRemoteFileCreated ig st parentId type entId entName io).1.syncLock =
      st.syncLock := by
  unfold handleRemoteFileCreated
  by_cases h1 : ig (remoteCreatedPath st parentId type entName) = true
  · simp [h1]
  · simp only [h1, if_false]
    by_cases h2 : remoteCreatedPath st parentId type entName ∈ st.syncLock
    · simp [h2]
    · simp only [h2, if_false]
      have key : ∀ (x : EngineState),
          x.syncLock = st.syncLock ++ [remoteCreatedPath st parentId type entName] →
          (releaseLock x (remoteCreatedPath st parentId type entName)).syncLock =
            st.syncLock := by
        intro x hx
        simp only [releaseLock, hx]
        exact erase_append_singleton _ _ h2
      repeat' split
      all_goals first | exact key _ rfl | rfl

theorem syncLock_handleRemoteFileRenamed (ig : Str → Bool) (st : EngineState)
    (entityId newName : Str) (io : RemoteFsIO) :
    (handleRemoteFileRenamed ig st entityId newName io).1.syncLock = st.syncLock := by
  unfold handleRemoteFileRenamed
  cases hl : lookupA st.fileTree entityId with
  | none => rfl
  | some entry =>
    simp only []
    by_cases h2 : entry.path ∈ st.syncLock
    · simp [h2]
    · simp only [h2, if_false]
      have key : ∀ (x : EngineState), x.syncLock = st.syncLock ++ [entry.path] →
          (releaseLock x entry.path).syncLock = st.syncLock := by
        intro x hx
        simp only [releaseLock, hx]
        exact erase_append_singleton _ _ h2
      repeat' split
      all_goals first | exact key _ rfl | rfl

theorem syncLock_handleRemoteFileRemoved (ig : Str → Bool) (st : EngineState)
    (entityId : Str) (io : RemoteRemoveIO) :
    (handleRemoteFileRemoved ig st entityId io).1.syncLock = st.syncLock := by
  unfold handleRemoteFileRemoved
  cases hl : lookupA st.fileTree entityId with
  | none => rfl
  | some entry =>
    simp only []
    by_cases h1 : ig entry.path = true
    · simp [h1]
    · simp only [h1, if_false]
      by_cases h2 : entry.path ∈ st.syncLock
      · simp [h2]
      · simp only [h2, if_false]
        have key : ∀ (x : EngineState), x.syncLock = st.syncLock ++ [entry.path] →
            (releaseLock x entry.path).syncLock = st.syncLock := by
          intro x hx
          simp only [releaseLock, hx]
          exact erase_append_singleton _ _ h2
        repeat' split
        all_goals first | exact key _ rfl | rfl

theorem syncLock_handleRemoteFileMoved (ig : Str → Bool) (st : EngineState)
    (entityId newParentId : Str) (io : RemoteFsIO) :
    (handleRemoteFileMoved ig st entityId newParentId io).1.syncLock = st.syncLock := by
  unfold handleRemoteFileMoved
  cases hl : lookupA st.fileTree entityId with
  | none => cases hp : lookupA st.fileTree newParentId <;> rfl
  | some entry =>
    cases hp : lookupA st.fileTree newParentId with
    | none => rfl
    | some newParent =>
      simp only []
      by_cases h2 : entry.path ∈ st.syncLock
      · simp [h2]
      · simp only [h2, if_false]
        have key : ∀ (x : EngineState), x.syncLock = st.syncLock ++ [entry.path] →
            (releaseLock x entry.path).syncLock = st.syncLock := by
          intro x hx
          simp only [releaseLock, hx]
          exact erase_append_singleton _ _ h2
        repeat' split
        all_goals first | exact key _ rfl | rfl

theorem syncLock_handleRemoteFileChanged (ig : Str → Bool) (st : EngineState)
    (update : DocumentUpdate) (io : RemoteChangeIO) :
    (handleRemoteFileChanged ig st update io).1.syncLock = st.syncLock := by
  unfold handleRemoteFileChanged
  cases hl : lookupA st.fileTree update.doc with
  | none => rfl
  | some entry =>
    simp only []
    by_cases ht : entry.type ≠ EntryType.doc
    · simp [ht]
    · simp only [ht, if_false]
      by_cases h1 : ig entry.path = true
      · simp [h1]
      · simp only [h1, if_false]
        by_cases h2 : entry.path ∈ st.syncLock
        · simp [h2]
        · simp only [h2, if_false]
          have key : ∀ (x : EngineState), x.syncLock = st.syncLock ++ [entry.path] →
              (releaseLock x entry.path).syncLock = st.syncLock := by
            intro x hx
            simp only [releaseLock, hx]
            exact erase_append_singleton _ _ h2
          repeat' split
          all_goals first | exact key _ rfl | rfl

theorem locked_drop_handleLocalFileChange (ig : Str → Bool) (st : EngineState)
    (path : Str) (io : LocalChangeIO) (h : path ∈ st.syncLock) :
    handleLocalFileChange ig st path io = (st, []) := by
  unfold handleLocalFileChange
  by_cases h1 : ig path = true <;> simp [h1, h]

theorem locked_drop_handleLocalFileCreate (ig : Str → Bool) (st : EngineState)
    (path : Str) (io : LocalCreateIO) (h : path ∈ st.syncLock) :
    handleLocalFileCreate ig st path io = (st, []) := by
  unfold handleLocalFileCreate
  by_cases h1 : ig path = true <;> simp [h1, h]

theorem locked_drop_handleLocalFileDelete (ig : Str → Bool) (st : EngineState)
    (path : Str) (io : LocalDeleteIO) (h : path ∈ st.syncLock) :
    handleLocalFileDelete ig st path io = (st, []) := by
  unfold handleLocalFileDelete
  by_cases h1 : ig path = true <;> simp [h1, h]

theorem locked_drop_handleRemoteFileCreated (ig : Str → Bool) (st : EngineState)
    (parentId : Str) (type : EntryType) (entId entName : Str) (io : RemoteCreateIO)
    (h : remoteCreatedPath st parentId type entName ∈ st.syncLock) :
    handleRemoteFileCreated ig st parentId type entId entName io = (st, []) := by
  unfold handleRemoteFileCreated
  by_cases h1 : ig (remoteCreatedPath st parentId type entName) = true <;> simp [h1, h]

theorem locked_drop_handleRemoteFileRenamed (ig : Str → Bool) (st : EngineState)
    (entityId newName : Str) (io : RemoteFsIO) (entry : FileTreeEntry)
    (hl : lookupA st.fileTree entityId = some entry) (h : entry.path ∈ st.syncLock) :
    handleRemoteFileRenamed ig st entityId newName io = (st, []) := by
  unfold handleRemoteFileRenamed
  simp [hl, h]

theorem locked_drop_handleRemoteFileRemoved (ig : Str → Bool) (st : EngineState)
    (entityId : Str) (io : RemoteRemoveIO) (entry : FileTreeEntry)
    (hl : lookupA st.fileTree entityId = some entry) (h : entry.path ∈ st.syncLock) :
    handleRemoteFileRemoved ig st entityId io = (st, []) := by
  unfold handleRemoteFileRemoved
  by_cases h1 : ig entry.path = true <;> simp [hl, h1, h]

theorem locked_drop_handleRemoteFileMoved (ig : Str → Bool) (st : EngineState)
    (entityId newParentId : Str) (io : RemoteFsIO) (entry : FileTreeEntry)
    (hl : lookupA st.fileTree entityId = some entry) (h : entry.path ∈ st.syncLock) :
    handleRemoteFileMoved ig st entityId newParentId io = (st, []) := by
  unfold handleRemoteFileMoved
  cases hp : lookupA st.fileTree newParentId <;> simp [hl, h]

theorem locked_drop_handleRemoteFileChanged (ig : Str → Bool) (st : EngineState)
    (update : DocumentUpdate) (io : RemoteChangeIO) (entry : FileTreeEntry)
    (hl : lookupA st.fileTree update.doc = some entry) (h : entry.path ∈ st.syncLock) :
    handleRemoteFileChanged ig st update io = (st, []) := by
  unfold handleRemoteFileChanged
  by_cases ht : entry.type ≠ EntryType.doc
  · simp [hl, ht]
  · by_cases h1 : ig entry.path = true <;> simp [hl, ht, h1, h]

/-- **C4** (per-path lock exclusivity and release): `acquireLock` is a
synchronous test-and-set on the `syncLock` set — it fails and changes
nothing when the path is already locked, and otherwise adds the path; a
second event for a path arriving while a handler is in flight is dropped
with no state change and no effects (never queued or duplicated), for every
handler; and every handler restores `syncLock` to exactly its initial value
(the acquired path is released in `finally` on every success and failure
branch, so the path is absent from `syncLock` after the handler that
acquired it completes). -/
theorem perPathLock_exclusivity_and_release :
    (∀ (st : EngineState) (p : Str), p ∈ st.syncLock → acquireLock st p = (false, st)) ∧
    (∀ (st : EngineState) (p : Str), p ∉ st.syncLock →
      acquireLock st p = (true, { st with syncLock := st.syncLock ++ [p] })) ∧
    (∀ (ig : Str → Bool) (st : EngineState) (path : Str) (io : LocalChangeIO),
      path ∈ st.syncLock → handleLocalFileChange ig st path io = (st, [])) ∧
    (∀ (ig : Str → Bool) (st : EngineState) (path : Str) (io : LocalCreateIO),
      path ∈ st.syncLock → handleLocalFileCreate ig st path io = (st, [])) ∧
    (∀ (ig : Str → Bool) (st : EngineState) (path : Str) (io : LocalDeleteIO),
      path ∈ st.syncLock → handleLocalFileDelete ig st path io = (st, [])) ∧
    (∀ (ig : Str → Bool) (st : EngineState) (parentId : Str) (type : EntryType)
        (entId entName : Str) (io : RemoteCreateIO),
      remoteCreatedPath st parentId type entName ∈ st.syncLock →
      handleRemoteFileCreated ig st parentId type entId entName io = (st, [])) ∧
    (∀ (ig : Str → Bool) (st : EngineState) (entityId newName : Str) (io : RemoteFsIO)
        (entry : FileTreeEntry), lookupA st.fileTree entityId = some entry →
      entry.path ∈ st.syncLock →
      handleRemoteFileRenamed ig st entityId newName io = (st, [])) ∧
    (∀ (ig : Str → Bool) (st : EngineState) (entityId : Str) (io : RemoteRemoveIO)
        (entry : FileTreeEntry), lookupA st.fileTree entityId = some entry →
      entry.path ∈ st.syncLock →
      handleRemoteFileRemoved ig st entityId io = (st, [])) ∧
    (∀ (ig : Str → Bool) (st : EngineState) (entityId newParentId : Str)
        (io : RemoteFsIO) (entry : FileTreeEntry),
      lookupA st.fileTree entityId = some entry → entry.path ∈ st.syncLock →
      handleRemoteFileMoved ig st entityId newParentId io = (st, [])) ∧
    (∀ (ig : Str → Bool) (st : EngineState) (update : DocumentUpdate)
        (io : RemoteChangeIO) (entry : FileTreeEntry),
      lookupA st.fileTree update.doc = some entry → entry.path ∈ st.syncLock →
      handleRemoteFileChanged ig st update io = (st, [])) ∧
    (∀ (ig : Str → Bool) (st : EngineState) (path : Str) (io : LocalChangeIO),
      (handleLocalFileChange ig st path io).1.syncLock = st.syncLock) ∧
    (∀ (ig : Str → Bool) (st : EngineState) (path : Str) (io : LocalCreateIO),
      (handleLocalFileCreate ig st path io).1.syncLock = st.syncLock) ∧
    (∀ (ig : Str → Bool) (st : EngineState) (path : Str) (io : LocalDeleteIO),
      (handleLocalFileDelete ig st path io).1.syncLock = st.syncLock) ∧
    (∀ (ig : Str → Bool) (st : EngineState) (parentId : Str) (type : EntryType)
        (entId entName : Str) (io : RemoteCreateIO),
      (handleRemoteFileCreated ig st parentId type entId entName io).1.syncLock =
        st.syncLock) ∧
    (∀ (ig : Str → Bool) (st : EngineState) (entityId newName : Str) (io : RemoteFsIO),
      (handleRemoteFileRenamed ig st entityId newName io).1.syncLock = st.syncLock) ∧
    (∀ (ig : Str → Bool) (st : EngineState) (entityId : Str) (io : RemoteRemoveIO),
      (handleRemoteFileRemoved ig st entityId io).1.syncLock = st.syncLock) ∧
    (∀ (ig : Str → Bool) (st : EngineState) (entityId newParentId : Str)
        (io : RemoteFsIO),
      (handleRemoteFileMoved ig st entityId newParentId io).1.syncLock = st.syncLock) ∧
    (∀ (ig : Str → Bool) (st : EngineState) (update : DocumentUpdate)
        (io : RemoteChangeIO),
      (handleRemoteFileChanged ig st update io).1.syncLock = st.syncLock) := by
  refine ⟨?_, ?_, ?_, ?_, ?_, ?_, ?_, ?_, ?_, ?_, ?_, ?_, ?_, ?_, ?_, ?_, ?_, ?_⟩
  · intro st p h; simp [acquireLock, h]
  · intro st p h; simp [acquireLock, h]
  · exact fun ig st path io h => locked_drop_handleLocalFileChange ig st path io h
  · exact fun ig st path io h => locked_drop_handleLocalFileCreate ig st path io h
  · exact fun ig st path io h => locked_drop_handleLocalFileDelete ig st path io h
  · exact fun ig st p t eId eN io h => locked_drop_handleRemoteFileCreated ig st p t eId eN io h
  · exact fun ig st eId nN io e hl h => locked_drop_handleRemoteFileRenamed ig st eId nN io e hl h
  · exact fun ig st eId io e hl h => locked_drop_handleRemoteFileRemoved ig st eId io e hl h
  · exact fun ig st eId nP io e hl h => locked_drop_handleRemoteFileMoved ig st eId nP io e hl h
  · exact fun ig st u io e hl h => locked_drop_handleRemoteFileChanged ig st u io e hl h
  · exact fun ig st path io => syncLock_handleLocalFileChange ig st path io
  · exact fun ig st path io => syncLock_handleLocalFileCreate ig st path io
  · exact fun ig st path io => syncLock_handleLocalFileDelete ig st path io
  · exact fun ig st p t eId eN io => syncLock_handleRemoteFileCreated ig st p t eId eN io
  · exact fun ig st eId nN io => syncLock_handleRemoteFileRenamed ig st eId nN io
  · exact fun ig st eId io => syncLock_handleRemoteFileRemoved ig st eId io
  · exact fun ig st eId nP io => syncLock_handleRemoteFileMoved ig st eId nP io
  · exact fun ig st u io => syncLock_handleRemoteFileChanged ig st u io

/-- Witness for `perPathLock_exclusivity_and_release`: a failed and a
successful test-and-set, a locked-path drop, and a lock-restoring handler
run, each at concrete inputs. -/
theorem perPathLock_exclusivity_and_release_witness :
    (acquireLock { syncLock := ["/a".toList] } "/a".toList =
      (false, { syncLock := ["/a".toList] })) ∧
    (acquireLock {} "/a".toList = (true, { syncLock := [] ++ ["/a".toList] })) ∧
    (handleLocalFileChange (fun _ => false) { syncLock := ["/a".toList] }
        "/a".toList { read := .ok "x".toList } = ({ syncLock := ["/a".toList] }, [])) ∧
    ((handleLocalFileChange (fun _ => false) {} "/a".toList
        { read := .ok "x".toList }).1.syncLock = EngineState.syncLock {}) := by
  refine ⟨?_, ?_, ?_, ?_⟩
  · exact perPathLock_exclusivity_and_release.1 _ _ (by decide)
  · exact perPathLock_exclusivity_and_release.2.1 _ _ (by decide)
  · exact perPathLock_exclusivity_and_release.2.2.1 _ _ _ _ (by decide)
  · exact perPathLock_exclusivity_and_release.2.2.2.2.2.2.2.2.2.2.1 _ _ _ _

theorem lookupA_setA_self {β : Type} (m : List (Str × β)) (k : Str) (v : β) :
    lookupA (setA m k v) k = some v := by
  induction m with
  | nil => simp [setA, lookupA]
  | cons p rest ih =>
    by_cases h : p.1 = k
    · simp [setA, h, lookupA]
    · simp [setA, h, lookupA, ih]

theorem lookupA_setA_ne {β : Type} (m : List (Str × β)) (k : Str) (v : β)
    (k' : Str) (h : k ≠ k') : lookupA (setA m k v) k' = lookupA m k' := by
  induction m with
  | nil => simp [setA, lookupA, h]
  | cons p rest ih =>
    by_cases hp : p.1 = k
    · simp only [setA, hp, if_true, lookupA]
      rw [if_neg h, if_neg (hp ▸ h)]
    · simp only [setA, hp, if_false, lookupA]
      by_cases hp' : p.1 = k' <;> simp [hp', ih]

theorem lookupA_delA_ne {β : Type} (m : List (Str × β)) (k k' : Str)
    (h : k ≠ k') : lookupA (delA m k) k' = lookupA m k' := by
  induction m with
  | nil => simp [delA, lookupA]
  | cons p rest ih =>
    by_cases hp : p.1 = k
    · simp only [delA, hp, if_true, lookupA]
      rw [if_neg (hp ▸ h)]
    · simp only [delA, hp, if_false, lookupA]
      by_cases hp' : p.1 = k' <;> simp [hp', ih]

theorem lookupA_eq_none_of_not_mem {β : Type} (m : List (Str × β)) (k : Str)
    (h : k ∉ m.map Prod.fst) : lookupA m k = none := by
  induction m with
  | nil => rfl
  | cons p rest ih =>
    simp only [List.map_cons, List.mem_cons, not_or] at h
    simp only [lookupA]
    rw [if_neg (fun he => h.1 he.symm)]
    exact ih h.2

theorem lookupA_delA_self {β : Type} (m : List (Str × β)) (k : Str)
    (h : (m.map Prod.fst).Nodup) : lookupA (delA m k) k = none := by
  induction m with
  | nil => rfl
  | cons p rest ih =>
    simp only [List.map_cons, List.nodup_cons] at h
    by_cases hp : p.1 = k
    · simp only [delA, hp, if_true]
      exact lookupA_eq_none_of_not_mem rest k (hp ▸ h.1)
    · simp only [delA, hp, if_false, lookupA, if_neg hp]
      exact ih h.2

theorem setA_of_not_mem {β : Type} (m : List (Str × β)) (k : Str) (v : β)
    (h : k ∉ m.map Prod.fst) : setA m k v = m ++ [(k, v)] := by
  induction m with
  | nil => rfl
  | cons p rest ih =>
    simp only [List.map_cons, List.mem_cons, not_or] at h
    simp only [setA]
    rw [if_neg (fun he => h.1 he.symm), ih h.2]
    rfl

theorem map_fst_setA {β : Type} (m : List (Str × β)) (k : Str) (v : β) :
    (setA m k v).map Prod.fst =
      if k ∈ m.map Prod.fst then m.map Prod.fst else m.map Prod.fst ++ [k] := by
  induction m with
  | nil => simp [setA]
  | cons p rest ih =>
    haveI : Nonempty (Str × β) := ⟨p⟩
    by_cases hp : p.1 = k
    · simp [setA, hp]
    · have hkp : ¬ k = p.1 := fun he => hp he.symm
      simp only [setA, hp, if_false, List.map_cons, ih, List.mem_cons, hkp,
        false_or]
      by_cases hk : k ∈ rest.map Prod.fst
      · simp [hk]
      · simp [hk]

theorem nodup_map_fst_setA {β : Type} (m : List (Str × β)) (k : Str) (v : β)
    (h : (m.map Prod.fst).Nodup) : ((setA m k v).map Prod.fst).Nodup := by
  haveI : Nonempty (Str × β) := ⟨(k, v)⟩
  rw [map_fst_setA]
  by_cases hk : k ∈ m.map Prod.fst
  · simpa [hk]
  · simp only [hk, if_false]
    rw [List.nodup_append]
    exact ⟨h, List.nodup_singleton _,
      fun a ha hb => hk (List.mem_singleton.mp hb ▸ ha)⟩

theorem delA_sublist {β : Type} (m : List (Str × β)) (k : Str) :
    (delA m k).Sublist m := by
  induction m with
  | nil => simp [delA]
  | cons p rest ih =>
    by_cases hp : p.1 = k
    · simp only [delA, hp, if_true]
      exact (List.sublist_cons_self p rest)
    · simp only [delA, hp, if_false]
      exact ih.cons₂ p

theorem nodup_map_fst_delA {β : Type} (m : List (Str × β)) (k : Str)
    (h : (m.map Prod.fst).Nodup) : ((delA m k).map Prod.fst).Nodup :=
  ((delA_sublist m k).map Prod.fst).nodup h

theorem mem_of_lookupA_eq_some {β : Type} (m : List (Str × β)) (k : Str) (v : β)
    (h : lookupA m k = some v) : (k, v) ∈ m := by
  induction m with
  | nil => simp [lookupA] at h
  | cons p rest ih =>
    by_cases hp : p.1 = k
    · simp only [lookupA, hp, if_true, Option.some.injEq] at h
      obtain ⟨pk, pv⟩ := p
      simp only at hp h
      rw [hp, h]
      exact List.mem_cons_self _ _
    · simp only [lookupA, hp, if_false] at h
      exact List.mem_cons_of_mem _ (ih h)

theorem lookupA_eq_some_of_mem {β : Type} (m : List (Str × β)) (k : Str) (v : β)
    (hnd : (m.map Prod.fst).Nodup) (h : (k, v) ∈ m) : lookupA m k = some v := by
  induction m with
  | nil => simp at h
  | cons p rest ih =>
    simp only [List.map_cons, List.nodup_cons] at hnd
    rcases List.mem_cons.mp h with he | hm
    · subst he
      simp [lookupA]
    · have hk : k ∈ rest.map Prod.fst := List.mem_map.mpr ⟨(k, v), hm, rfl⟩
      have hp : p.1 ≠ k := fun he => hnd.1 (he ▸ hk)
      simp only [lookupA, hp, if_false]
      exact ih hnd.2 hm

theorem mem_delA_of_mem_ne {β : Type} (m : List (Str × β)) (k : Str)
    (p : Str × β) (hnd : (m.map Prod.fst).Nodup) (hm : p ∈ m) (hne : p.1 ≠ k) :
    p ∈ delA m k := by
  induction m with
  | nil => simp at hm
  | cons q rest ih =>
    simp only [List.map_cons, List.nodup_cons] at hnd
    by_cases hq : q.1 = k
    · simp only [delA, hq, if_true]
      rcases List.mem_cons.mp hm with he | hm'
      · exact absurd (he ▸ hq) hne
      · exact hm'
    · simp only [delA, hq, if_false]
      rcases List.mem_cons.mp hm with he | hm'
      · exact he ▸ List.mem_cons_self _ _
      · exact List.mem_cons_of_mem _ (ih hnd.2 hm')

theorem mem_of_mem_delA {β : Type} (m : List (Str × β)) (k : Str)
    (p : Str × β) (hm : p ∈ delA m k) : p ∈ m :=
  (delA_sublist m k).mem hm

theorem mem_setA_cases {β : Type} (m : List (Str × β)) (k : Str) (v : β)
    (p : Str × β) (hnd : (m.map Prod.fst).Nodup) (hm : p ∈ setA m k v) :
    p = (k, v) ∨ (p ∈ m ∧ p.1 ≠ k) := by
  induction m with
  | nil => simp [setA] at hm; left; simpa using hm
  | cons q rest ih =>
    simp only [List.map_cons, List.nodup_cons] at hnd
    by_cases hq : q.1 = k
    · simp only [setA, hq, if_true] at hm
      rcases List.mem_cons.mp hm with he | hm'
      · left; exact he
      · have hk : p.1 ∈ rest.map Prod.fst := List.mem_map.mpr ⟨p, hm', rfl⟩
        have hpk : p.1 ≠ k := fun he => hnd.1 (hq ▸ he ▸ hk)
        right; exact ⟨List.mem_cons_of_mem _ hm', hpk⟩
    · simp only [setA, hq, if_false] at hm
      rcases List.mem_cons.mp hm with he | hm'
      · subst he
        right
        exact ⟨List.mem_cons_self _ _, hq⟩
      · rcases ih hnd.2 hm' with h | ⟨h1, h2⟩
        · left; exact h
        · right; exact ⟨List.mem_cons_of_mem _ h1, h2⟩

/-- **C9**: creating a local text file (`/a.tex`, matching the extension
allow-list) makes `handleLocalFileCreate` emit `addDoc` — an *empty* remote
document, with no content upload — as the claim says; but the claim's
second half fails: the create handler also populates `fileCache` with the
hash of the file's content, so the subsequent modify event for the same
path carrying that content is suppressed by `shouldPropagate` (equal hash)
and pushes nothing, even long after the 500ms debounce window and with a
live socket.  The file's content therefore never reaches the remote: the
remote document stays empty until the local content actually changes. -/
theorem localCreate_textFile_content_never_pushed :
    (handleLocalFileCreate (fun _ => false)
        { fileTreeByPath :=
            [("/".toList, ⟨"root".toList, .folder, [], "/".toList, none⟩)],
          hasSocket := true }
        "/a.tex".toList
        { stat := .fileKind, read := .ok "hello".toList, apiFails := false,
          now := 1000 }).2 =
      [Effect.apiAddDoc (some "root".toList) "a.tex".toList] ∧
    (handleLocalFileChange (fun _ => false)
        (handleLocalFileCreate (fun _ => false)
          { fileTreeByPath :=
              [("/".toList, ⟨"root".toList, .folder, [], "/".toList, none⟩)],
            hasSocket := true }
          "/a.tex".toList
          { stat := .fileKind, read := .ok "hello".toList, apiFails := false,
            now := 1000 }).1
        "/a.tex".toList
        { read := .ok "hello".toList, now := 600000,
          joinDoc := some ([], 5) }).2 = [] := by
  constructor
  · rfl
  · rfl

theorem lookupA_append {β : Type} (m1 m2 : List (Str × β)) (k : Str) :
    lookupA (m1 ++ m2) k =
      match lookupA m1 k with
      | some v => some v
      | none => lookupA m2 k := by
  induction m1 with
  | nil => simp [lookupA]
  | cons p rest ih =>
    by_cases hp : p.1 = k
    · simp [lookupA, hp]
    · simp [lookupA, hp, ih]

theorem not_mem_keys_of_lookupA_eq_none {β : Type} (m : List (Str × β)) (k : Str)
    (h : lookupA m k = none) : k ∉ m.map Prod.fst := by
  induction m with
  | nil => simp
  | cons p rest ih =>
    by_cases hp : p.1 = k
    · simp [lookupA, hp] at h
    · simp only [lookupA, hp, if_false] at h
      simp only [List.map_cons, List.mem_cons, not_or]
      exact ⟨fun he => hp he.symm, ih h⟩

theorem keys_delA_subset {β : Type} (m : List (Str × β)) (k k' : Str)
    (h : k' ∈ (delA m k).map Prod.fst) : k' ∈ m.map Prod.fst := by
  obtain ⟨p, hp, he⟩ := List.mem_map.mp h
  exact List.mem_map.mpr ⟨p, mem_of_mem_delA m k p hp, he⟩

theorem key_not_mem_delA {β : Type} (m : List (Str × β)) (k : Str)
    (hnd : (m.map Prod.fst).Nodup) : k ∉ (delA m k).map Prod.fst :=
  not_mem_keys_of_lookupA_eq_none _ _ (lookupA_delA_self m k hnd)

theorem foldl_setA_eq_map {β : Type} (key : β → Str) (es : List β)
    (m : List (Str × β)) (hd : ∀ e ∈ es, key e ∉ m.map Prod.fst)
    (hnd : (es.map key).Nodup) :
    es.foldl (fun acc e => setA acc (key e) e) m = m ++ es.map (fun e => (key e, e)) := by
  induction es generalizing m with
  | nil => simp
  | cons e rest ih =>
    simp only [List.map_cons, List.nodup_cons] at hnd
    simp only [List.foldl_cons]
    rw [setA_of_not_mem _ _ _ (hd e (List.mem_cons_self _ _))]
    rw [ih (m ++ [(key e, e)]) ?_ hnd.2]
    · simp
    · intro e' he'
      simp only [List.map_append, List.mem_append, List.map_cons, not_or]
      refine ⟨hd e' (List.mem_cons_of_mem _ he'), ?_⟩
      simp only [List.map_nil, List.mem_singleton]
      intro he
      exact hnd.1 (he ▸ List.mem_map.mpr ⟨e', he', rfl⟩)

theorem indexConsistent_of_entries (st : EngineState) (es : List FileTreeEntry)
    (hid : (es.map FileTreeEntry.id).Nodup) (hpath : (es.map FileTreeEntry.path).Nodup)
    (hft : st.fileTree = es.map fun e => (e.id, e))
    (hbp : st.fileTreeByPath = es.map fun e => (e.path, e)) :
    IndexConsistent st := by
  have hkf : st.fileTree.map Prod.fst = es.map FileTreeEntry.id := by
    rw [hft, List.map_map]; rfl
  have hkb : st.fileTreeByPath.map Prod.fst = es.map FileTreeEntry.path := by
    rw [hbp, List.map_map]; rfl
  refine ⟨hkf ▸ hid, hkb ▸ hpath, ?_, ?_⟩
  · intro p hp
    rw [hft] at hp
    obtain ⟨e, he, heq⟩ := List.mem_map.mp hp
    refine ⟨by rw [← heq], ?_⟩
    rw [← heq, hbp]
    exact lookupA_eq_some_of_mem _ _ _ (by rw [List.map_map]; exact hpath)
      (List.mem_map.mpr ⟨e, he, rfl⟩)
  · intro p hp
    rw [hbp] at hp
    obtain ⟨e, he, heq⟩ := List.mem_map.mp hp
    refine ⟨by rw [← heq], ?_⟩
    rw [← heq, hft]
    exact lookupA_eq_some_of_mem _ _ _ (by rw [List.map_map]; exact hid)
      (List.mem_map.mpr ⟨e, he, rfl⟩)

theorem indexConsistent_buildFlat (st : EngineState) (ents : List FlatEntity)
    (hid : ((ents.map flatEntry).map FileTreeEntry.id).Nodup)
    (hpath : ((ents.map flatEntry).map FileTreeEntry.path).Nodup) :
    IndexConsistent (buildFileTreeFromEntities st ents) := by
  apply indexConsistent_of_entries _ (ents.map flatEntry) hid hpath
  · show (ents.map flatEntry).foldl (fun m e => setA m e.id e) [] = _
    exact (foldl_setA_eq_map FileTreeEntry.id _ [] (by simp) hid).trans (by simp)
  · show (ents.map flatEntry).foldl (fun m e => setA m e.path e) [] = _
    exact (foldl_setA_eq_map FileTreeEntry.path _ [] (by simp) hpath).trans (by simp)

theorem indexConsistent_buildTree (st : EngineState) (roots : List RemoteFolder)
    (hwf : WfMutation st (.buildTree roots)) :
    IndexConsistent (buildFileTree st roots) := by
  match roots with
  | [] =>
    refine ⟨?_, ?_, ?_, ?_⟩ <;> simp [buildFileTree, IndexConsistent]
  | root :: rest =>
    obtain ⟨hid, hpath⟩ := hwf
    apply indexConsistent_of_entries _ (entriesOfFolder root [] none true) hid hpath
    · show (entriesOfFolder root [] none true).foldl (fun m e => setA m e.id e) [] = _
      exact (foldl_setA_eq_map FileTreeEntry.id _ [] (by simp) hid).trans (by simp)
    · show (entriesOfFolder root [] none true).foldl (fun m e => setA m e.path e) [] = _
      exact (foldl_setA_eq_map FileTreeEntry.path _ [] (by simp) hpath).trans (by simp)

theorem lookupA_singleton {β : Type} (k : Str) (v : β) :
    lookupA [(k, v)] k = some v := by simp [lookupA]

theorem consistent_insert (st st' : EngineState) (entry : FileTreeEntry)
    (hc : IndexConsistent st)
    (hid : lookupA st.fileTree entry.id = none)
    (hp : lookupA st.fileTreeByPath entry.path = none)
    (hft : st'.fileTree = setA st.fileTree entry.id entry)
    (hbp : st'.fileTreeByPath = setA st.fileTreeByPath entry.path entry) :
    IndexConsistent st' := by
  obtain ⟨nf, nb, Hf, Hb⟩ := hc
  have hkid : entry.id ∉ st.fileTree.map Prod.fst :=
    not_mem_keys_of_lookupA_eq_none _ _ hid
  have hkp : entry.path ∉ st.fileTreeByPath.map Prod.fst :=
    not_mem_keys_of_lookupA_eq_none _ _ hp
  have hft' : st'.fileTree = st.fileTree ++ [(entry.id, entry)] :=
    hft.trans (setA_of_not_mem _ _ _ hkid)
  have hbp' : st'.fileTreeByPath = st.fileTreeByPath ++ [(entry.path, entry)] :=
    hbp.trans (setA_of_not_mem _ _ _ hkp)
  refine ⟨?_, ?_, ?_, ?_⟩
  · rw [hft', List.map_append, List.nodup_append]
    exact ⟨nf, List.nodup_singleton _,
      fun a ha hb => hkid (List.mem_singleton.mp (by simpa using hb) ▸ ha)⟩
  · rw [hbp', List.map_append, List.nodup_append]
    exact ⟨nb, List.nodup_singleton _,
      fun a ha hb => hkp (List.mem_singleton.mp (by simpa using hb) ▸ ha)⟩
  · intro p hmem
    rw [hft'] at hmem
    rcases List.mem_append.mp hmem with hold | hnew
    · obtain ⟨h1, h2⟩ := Hf p hold
      refine ⟨h1, ?_⟩
      rw [hbp', lookupA_append, h2]
    · have hpe : p = (entry.id, entry) := by simpa using hnew
      subst hpe
      refine ⟨rfl, ?_⟩
      rw [hbp', lookupA_append, hp, lookupA_singleton]
  · intro p hmem
    rw [hbp'] at hmem
    rcases List.mem_append.mp hmem with hold | hnew
    · obtain ⟨h1, h2⟩ := Hb p hold
      refine ⟨h1, ?_⟩
      rw [hft', lookupA_append, h2]
    · have hpe : p = (entry.path, entry) := by simpa using hnew
      subst hpe
      refine ⟨rfl, ?_⟩
      rw [hft', lookupA_append, hid, lookupA_singleton]

theorem consistent_erase (st st' : EngineState) (entityId : Str) (e : FileTreeEntry)
    (hc : IndexConsistent st)
    (hl : lookupA st.fileTree entityId = some e)
    (hft : st'.fileTree = delA st.fileTree entityId)
    (hbp : st'.fileTreeByPath = delA st.fileTreeByPath e.path) :
    IndexConsistent st' := by
  obtain ⟨nf, nb, Hf, Hb⟩ := hc
  have hmem_e : (entityId, e) ∈ st.fileTree := mem_of_lookupA_eq_some _ _ _ hl
  obtain ⟨heid, hbpe⟩ := Hf _ hmem_e
  refine ⟨?_, ?_, ?_, ?_⟩
  · rw [hft]; exact nodup_map_fst_delA _ _ nf
  · rw [hbp]; exact nodup_map_fst_delA _ _ nb
  · intro p hmem
    rw [hft] at hmem
    have hpm : p ∈ st.fileTree := mem_of_mem_delA _ _ _ hmem
    obtain ⟨h1, h2⟩ := Hf p hpm
    have hkne : p.1 ≠ entityId := by
      intro he
      have hkm : p.1 ∈ (delA st.fileTree entityId).map Prod.fst :=
        List.mem_map.mpr ⟨p, hmem, rfl⟩
      rw [he] at hkm
      exact key_not_mem_delA st.fileTree entityId nf hkm
    refine ⟨h1, ?_⟩
    have hpne : p.2.path ≠ e.path := by
      intro he
      have hsome : lookupA st.fileTreeByPath p.2.path = some e := by rw [he]; exact hbpe
      have hpe : p.2 = e := by
        rw [h2] at hsome
        exact Option.some.inj hsome
      apply hkne
      rw [← h1, hpe, heid]
    rw [hbp, lookupA_delA_ne _ _ _ (fun he => hpne he.symm)]
    exact h2
  · intro p hmem
    rw [hbp] at hmem
    have hpm : p ∈ st.fileTreeByPath := mem_of_mem_delA _ _ _ hmem
    obtain ⟨h1, h2⟩ := Hb p hpm
    have hkne : p.1 ≠ e.path := by
      intro he
      have hkm : p.1 ∈ (delA st.fileTreeByPath e.path).map Prod.fst :=
        List.mem_map.mpr ⟨p, hmem, rfl⟩
      rw [he] at hkm
      exact key_not_mem_delA st.fileTreeByPath e.path nb hkm
    refine ⟨h1, ?_⟩
    have hidne : p.2.id ≠ entityId := by
      intro he
      have hsome : lookupA st.fileTree entityId = some p.2 := by rw [← he]; exact h2
      have hpe : p.2 = e := by
        rw [hl] at hsome
        exact Option.some.inj hsome.symm
      apply hkne
      rw [← h1, hpe]
    rw [hft, lookupA_delA_ne _ _ _ (fun he => hidne he.symm)]
    exact h2

theorem consistent_update_path (st st' : EngineState) (entityId : Str)
    (e e' : FileTreeEntry)
    (hc : IndexConsistent st)
    (hl : lookupA st.fileTree entityId = some e)
    (hid : e'.id = e.id)
    (hwf : ∀ e'', lookupA st.fileTreeByPath e'.path = some e'' → e''.id = entityId)
    (hft : st'.fileTree = setA st.fileTree entityId e')
    (hbp : st'.fileTreeByPath =
      setA (delA st.fileTreeByPath e.path) e'.path e') :
    IndexConsistent st' := by
  obtain ⟨nf, nb, Hf, Hb⟩ := hc
  have hmem_e : (entityId, e) ∈ st.fileTree := mem_of_lookupA_eq_some _ _ _ hl
  obtain ⟨heid, hbpe⟩ := Hf _ hmem_e
  dsimp only at heid hbpe
  -- the new path is not a key of the pruned path-map
  have hnp : e'.path ∉ (delA st.fileTreeByPath e.path).map Prod.fst := by
    cases hcase : lookupA st.fileTreeByPath e'.path with
    | none =>
      intro hm
      exact not_mem_keys_of_lookupA_eq_none _ _ hcase
        (keys_delA_subset _ _ _ hm)
    | some e2 =>
      have h2id : e2.id = entityId := hwf e2 hcase
      have h2mem : (e'.path, e2) ∈ st.fileTreeByPath :=
        mem_of_lookupA_eq_some _ _ _ hcase
      obtain ⟨h2path, h2ft⟩ := Hb _ h2mem
      dsimp only at h2path h2ft
      have h2e : e2 = e := by
        rw [h2id, hl] at h2ft
        exact Option.some.inj h2ft.symm
      have heq : e'.path = e.path := by rw [← h2path, h2e]
      rw [heq]
      exact key_not_mem_delA _ _ nb
  have hbp' : st'.fileTreeByPath =
      delA st.fileTreeByPath e.path ++ [(e'.path, e')] :=
    hbp.trans (setA_of_not_mem _ _ _ hnp)
  refine ⟨?_, ?_, ?_, ?_⟩
  · rw [hft]; exact nodup_map_fst_setA _ _ _ nf
  · rw [hbp', List.map_append, List.nodup_append]
    exact ⟨nodup_map_fst_delA _ _ nb, List.nodup_singleton _,
      fun a ha hb => hnp (List.mem_singleton.mp (by simpa using hb) ▸ ha)⟩
  · intro p hmem
    rw [hft] at hmem
    rcases mem_setA_cases _ _ _ _ nf hmem with hnew | ⟨hold, hkne⟩
    · subst hnew
      refine ⟨by rw [hid, heid], ?_⟩
      rw [hbp', lookupA_append,
        lookupA_eq_none_of_not_mem _ _ hnp, lookupA_singleton]
    · obtain ⟨h1, h2⟩ := Hf p hold
      refine ⟨h1, ?_⟩
      -- p's path avoids both the old and the new path of the entity
      have hpold : p.2.path ≠ e.path := by
        intro he
        have hsome : lookupA st.fileTreeByPath p.2.path = some e := by
          rw [he]; exact hbpe
        have hpe : p.2 = e := by rw [h2] at hsome; exact Option.some.inj hsome
        apply hkne
        rw [← h1, hpe, heid]
      have hpnew : p.2.path ≠ e'.path := by
        intro he
        have hsome : lookupA st.fileTreeByPath e'.path = some p.2 := by
          rw [← he]; exact h2
        have : p.2.id = entityId := hwf _ hsome
        apply hkne
        rw [← h1, this]
      rw [hbp', lookupA_append,
        lookupA_delA_ne _ _ _ (fun he => hpold he.symm), h2]
  · intro p hmem
    rw [hbp'] at hmem
    rcases List.mem_append.mp hmem with hold | hnew
    · have hpm : p ∈ st.fileTreeByPath := mem_of_mem_delA _ _ _ hold
      obtain ⟨h1, h2⟩ := Hb p hpm
      refine ⟨h1, ?_⟩
      have hidne : p.2.id ≠ entityId := by
        intro he
        have hsome : lookupA st.fileTree entityId = some p.2 := by
          rw [← he]; exact h2
        have hpe : p.2 = e := by
          rw [hl] at hsome; exact Option.some.inj hsome.symm
        have hkm : p.1 ∈ (delA st.fileTreeByPath e.path).map Prod.fst :=
          List.mem_map.mpr ⟨p, hold, rfl⟩
        rw [← h1, hpe] at hkm
        exact key_not_mem_delA _ _ nb hkm
      rw [hft, lookupA_setA_ne _ _ _ _ (fun he => hidne he.symm)]
      exact h2
    · have hpe : p = (e'.path, e') := by simpa using hnew
      subst hpe
      refine ⟨rfl, ?_⟩
      rw [hft, hid, heid, lookupA_setA_self]

theorem indexConsistent_congr (st st' : EngineState)
    (h1 : st'.fileTree = st.fileTree) (h2 : st'.fileTreeByPath = st.fileTreeByPath)
    (hc : IndexConsistent st) : IndexConsistent st' := by
  unfold IndexConsistent at *
  rw [h1, h2]
  exact hc

theorem index_cases_created (ig : Str → Bool) (st : EngineState) (p : Str)
    (t : EntryType) (eId eN : Str) (io : RemoteCreateIO) :
    ((handleRemoteFileCreated ig st p t eId eN io).1.fileTree = st.fileTree ∧
      (handleRemoteFileCreated ig st p t eId eN io).1.fileTreeByPath =
        st.fileTreeByPath) ∨
    ((handleRemoteFileCreated ig st p t eId eN io).1.fileTree =
        setA st.fileTree eId ⟨eId, t, eN, remoteCreatedPath st p t eN, some p⟩ ∧
      (handleRemoteFileCreated ig st p t eId eN io).1.fileTreeByPath =
        setA st.fileTreeByPath (remoteCreatedPath st p t eN)
          ⟨eId, t, eN, remoteCreatedPath st p t eN, some p⟩) := by
  unfold handleRemoteFileCreated
  by_cases h1 : ig (remoteCreatedPath st p t eN) = true
  · left; simp [h1]
  · simp only [h1, if_false]
    by_cases h2 : remoteCreatedPath st p t eN ∈ st.syncLock
    · left; simp [h2]
    · right
      simp only [h2, if_false]
      constructor <;> (repeat' split) <;> first | rfl | simp_all

theorem index_cases_renamed (ig : Str → Bool) (st : EngineState)
    (entityId newName : Str) (io : RemoteFsIO) :
    ((handleRemoteFileRenamed ig st entityId newName io).1.fileTree = st.fileTree ∧
      (handleRemoteFileRenamed ig st entityId newName io).1.fileTreeByPath =
        st.fileTreeByPath) ∨
    (∃ entry, lookupA st.fileTree entityId = some entry ∧
      (handleRemoteFileRenamed ig st entityId newName io).1.fileTree =
        setA st.fileTree entityId
          { entry with name := newName, path := renamedPath entry newName } ∧
      (handleRemoteFileRenamed ig st entityId newName io).1.fileTreeByPath =
        setA (delA st.fileTreeByPath entry.path) (renamedPath entry newName)
          { entry with name := newName, path := renamedPath entry newName }) := by
  unfold handleRemoteFileRenamed
  cases hl : lookupA st.fileTree entityId with
  | none => left; exact ⟨rfl, rfl⟩
  | some entry =>
    simp only []
    by_cases h2 : entry.path ∈ st.syncLock
    · left; simp [h2]
    · right
      refine ⟨entry, rfl, ?_⟩
      simp only [h2, if_false]
      constructor <;> (repeat' split) <;> first | rfl | simp_all

theorem index_cases_moved (ig : Str → Bool) (st : EngineState)
    (entityId newParentId : Str) (io : RemoteFsIO) :
    ((handleRemoteFileMoved ig st entityId newParentId io).1.fileTree = st.fileTree ∧
      (handleRemoteFileMoved ig st entityId newParentId io).1.fileTreeByPath =
        st.fileTreeByPath) ∨
    (∃ entry newParent, lookupA st.fileTree entityId = some entry ∧
      lookupA st.fileTree newParentId = some newParent ∧
      (handleRemoteFileMoved ig st entityId newParentId io).1.fileTree =
        setA st.fileTree entityId
          { entry with path := movedPath entry newParent,
                       parentId := some newParentId } ∧
      (handleRemoteFileMoved ig st entityId newParentId io).1.fileTreeByPath =
        setA (delA st.fileTreeByPath entry.path) (movedPath entry newParent)
          { entry with path := movedPath entry newParent,
                       parentId := some newParentId }) := by
  unfold handleRemoteFileMoved
  cases hl : lookupA st.fileTree entityId with
  | none =>
    cases hp : lookupA st.fileTree newParentId <;> (left; exact ⟨rfl, rfl⟩)
  | some entry =>
    cases hp : lookupA st.fileTree newParentId with
    | none => left; exact ⟨rfl, rfl⟩
    | some newParent =>
      simp only []
      by_cases h2 : entry.path ∈ st.syncLock
      · left; simp [h2]
      · right
        refine ⟨entry, newParent, rfl, rfl, ?_⟩
        simp only [h2, if_false]
        constructor <;> (repeat' split) <;> first | rfl | simp_all

theorem index_cases_removed (ig : Str → Bool) (st : EngineState)
    (entityId : Str) (io : RemoteRemoveIO) :
    ((handleRemoteFileRemoved ig st entityId io).1.fileTree = st.fileTree ∧
      (handleRemoteFileRemoved ig st entityId io).1.fileTreeByPath =
        st.fileTreeByPath) ∨
    (∃ entry, lookupA st.fileTree entityId = some entry ∧
      (handleRemoteFileRemoved ig st entityId io).1.fileTree =
        delA st.fileTree entityId ∧
      (handleRemoteFileRemoved ig st entityId io).1.fileTreeByPath =
        delA st.fileTreeByPath entry.path) := by
  unfold handleRemoteFileRemoved
  cases hl : lookupA st.fileTree entityId with
  | none => left; exact ⟨rfl, rfl⟩
  | some entry =>
    simp only []
    by_cases h1 : ig entry.path = true
    · left; simp [h1]
    · simp only [h1, if_false]
      by_cases h2 : entry.path ∈ st.syncLock
      · left; simp [h2]
      · right
        refine ⟨entry, rfl, ?_⟩
        simp only [h2, if_false]
        constructor <;> (repeat' split) <;> first | rfl | simp_all

theorem index_cases_localDelete (ig : Str → Bool) (st : EngineState)
    (path : Str) (io : LocalDeleteIO) :
    ((handleLocalFileDelete ig st path io).1.fileTree = st.fileTree ∧
      (handleLocalFileDelete ig st path io).1.fileTreeByPath =
        st.fileTreeByPath) ∨
    (∃ entry, lookupA st.fileTreeByPath path = some entry ∧
      (handleLocalFileDelete ig st path io).1.fileTree =
        delA st.fileTree entry.id ∧
      (handleLocalFileDelete ig st path io).1.fileTreeByPath =
        delA st.fileTreeByPath path) := by
  unfold handleLocalFileDelete
  by_cases h1 : ig path = true
  · left; simp [h1]
  · simp only [h1, if_false]
    by_cases h2 : path ∈ st.syncLock
    · left; simp [h2]
    · simp only [h2, if_false]
      cases hl : lookupA st.fileTreeByPath path with
      | none => left; exact ⟨rfl, rfl⟩
      | some entry =>
        simp only []
        by_cases h3 : io.apiFails = true
        · left
          simp only [h3, if_true]
          exact ⟨rfl, rfl⟩
        · right
          refine ⟨entry, rfl, ?_⟩
          simp only [h3, if_false]
          exact ⟨rfl, rfl⟩

theorem indexConsistent_applyIndexMutation (ig : Str → Bool) (st : EngineState)
    (m : IndexMutation) (hc : IndexConsistent st) (hwf : WfMutation st m) :
    IndexConsistent (applyIndexMutation ig st m) := by
  cases m with
  | buildTree roots => exact indexConsistent_buildTree st roots hwf
  | buildFlat ents => exact indexConsistent_buildFlat st ents hwf.1 hwf.2
  | remoteCreate p t eId eN io =>
    rcases index_cases_created ig st p t eId eN io with ⟨h1, h2⟩ | ⟨h1, h2⟩
    · exact indexConsistent_congr st _ h1 h2 hc
    · exact consistent_insert st _
        ⟨eId, t, eN, remoteCreatedPath st p t eN, some p⟩ hc hwf.1 hwf.2 h1 h2
  | remoteRename eId nN io =>
    rcases index_cases_renamed ig st eId nN io with ⟨h1, h2⟩ | ⟨entry, hl, h1, h2⟩
    · exact indexConsistent_congr st _ h1 h2 hc
    · exact consistent_update_path st _ eId entry
        { entry with name := nN, path := renamedPath entry nN } hc hl rfl
        (hwf entry hl) h1 h2
  | remoteMove eId nP io =>
    rcases index_cases_moved ig st eId nP io with ⟨h1, h2⟩ | ⟨entry, q, hl, hq, h1, h2⟩
    · exact indexConsistent_congr st _ h1 h2 hc
    · exact consistent_update_path st _ eId entry
        { entry with path := movedPath entry q, parentId := some nP } hc hl rfl
        (hwf entry hl q hq) h1 h2
  | remoteRemove eId io =>
    rcases index_cases_removed ig st eId io with ⟨h1, h2⟩ | ⟨entry, hl, h1, h2⟩
    · exact indexConsistent_congr st _ h1 h2 hc
    · exact consistent_erase st _ eId entry hc hl h1 h2
  | localDelete p io =>
    rcases index_cases_localDelete ig st p io with ⟨h1, h2⟩ | ⟨entry, hl, h1, h2⟩
    · exact indexConsistent_congr st _ h1 h2 hc
    · obtain ⟨hpath, hft⟩ := hc.2.2.2 (p, entry) (mem_of_lookupA_eq_some _ _ _ hl)
      dsimp only at hpath hft
      refine consistent_erase st _ entry.id entry hc hft h1 ?_
      rw [hpath]
      exact h2

/-- **C3** counterexample: the claim fails on `buildFileTreeFromEntities`.
Starting from the (consistent) empty index, a single build from the flat
entity list `[aaaaaaaaaaaaaaaaab, aaaaaaaaaaaaaaaaac]` (two distinct paths
of 18 characters sharing a 17-character prefix) produces an inconsistent
index: the base64-derived pseudo-ids are truncated to 24 characters and
collide, so the id-map ends with a single entry while the path-map has two,
and the first path's entry points at an identity whose id-map record
carries the other path — the id↔path correspondence is broken. -/
theorem indexBijection_counterexample :
    IndexConsistent ({} : EngineState) ∧
    pseudoId ('/' :: "aaaaaaaaaaaaaaaaab".toList) =
      pseudoId ('/' :: "aaaaaaaaaaaaaaaaac".toList) ∧
    ¬ IndexConsistent (applyIndexMutations (fun _ => false) {}
      [.buildFlat [⟨"aaaaaaaaaaaaaaaaab".toList, "doc".toList⟩,
                   ⟨"aaaaaaaaaaaaaaaaac".toList, "doc".toList⟩]]) := by
  refine ⟨by decide, by decide, by decide⟩

/-- **C3** (amended): the index bijection invariant holds after any
sequence of index mutations (build from a full tree or flat entity list,
remote create, rename, move, remove, local delete) *provided* each mutation
is collision-free against the state it is applied to: builds derive
duplicate-free identities and paths (the flat build's truncated base64
pseudo-ids are *not* always duplicate-free, per the counterexample), a
remote create carries a fresh identity and a fresh path, and a rename or
move does not land on a path held by a different entity.  Under these side
conditions, every identity in the id-map has exactly one corresponding path
in the path-map and vice versa, and no two distinct identities map to the
same path. -/
theorem indexBijection_preserved (ig : Str → Bool) (st : EngineState)
    (ms : List IndexMutation) (hc : IndexConsistent st)
    (hwf : WfMutations ig st ms) :
    IndexConsistent (applyIndexMutations ig st ms) := by
  induction ms generalizing st with
  | nil => exact hc
  | cons m rest ih =>
    exact ih _ (indexConsistent_applyIndexMutation ig st m hc hwf.1) hwf.2

/-- Witness for `indexBijection_preserved`: a concrete flat build followed
by a local delete, starting from the empty index. -/
theorem indexBijection_preserved_witness :
    IndexConsistent (applyIndexMutations (fun _ => false) {}
      [.buildFlat [⟨"a.tex".toList, "doc".toList⟩],
       .localDelete ('/' :: "a.tex".toList) {}]) := by
  apply indexBijection_preserved
  · decide
  · exact ⟨⟨by decide, by decide⟩, trivial, trivial⟩

theorem pullAllStep_fs_ne (ig : Str → Bool) (now : Nat) (ps : PullState)
    (e : FileTreeEntry) (p : Str) (h : p ≠ e.path) :
    lookupA (pullAllStep ig now ps e).fs p = lookupA ps.fs p := by
  simp only [pullAllStep]
  repeat' split
  all_goals first
    | rfl
    | exact lookupA_setA_ne _ _ _ _ (fun he => h he.symm)

theorem pullAllStep_remote_ne (ig : Str → Bool) (now : Nat) (ps : PullState)
    (e : FileTreeEntry) (i : Str) (h : i ≠ e.id) :
    lookupA (pullAllStep ig now ps e).remote i = lookupA ps.remote i := by
  simp only [pullAllStep]
  repeat' split
  all_goals first
    | rfl
    | exact lookupA_setA_ne _ _ _ _ (fun he => h he.symm)

theorem pullAllStep_skipped_mono (ig : Str → Bool) (now : Nat) (ps : PullState)
    (e : FileTreeEntry) : ps.skipped ≤ (pullAllStep ig now ps e).skipped := by
  simp only [pullAllStep]
  repeat' split
  all_goals simp

theorem askResolution_fileTree (eng : EngineState) (choices : List UserChoice) :
    (askResolution eng choices).2.1.fileTree = eng.fileTree := by
  unfold askResolution
  repeat' split
  all_goals rfl

theorem pullAllStep_fileTree (ig : Str → Bool) (now : Nat) (ps : PullState)
    (e : FileTreeEntry) :
    (pullAllStep ig now ps e).engine.fileTree = ps.engine.fileTree := by
  simp only [pullAllStep]
  repeat' split
  all_goals first
    | rfl
    | exact askResolution_fileTree _ _

theorem pullAllStep_good_preserve (ig : Str → Bool) (now : Nat) (ps : PullState)
    (e e' : FileTreeEntry) (hp : e'.path ≠ e.path) (hi : e'.id ≠ e.id)
    (hg : goodEntry ig e' ps.remote ps.fs) :
    goodEntry ig e' (pullAllStep ig now ps e).remote (pullAllStep ig now ps e).fs := by
  intro hty hig rc hrc
  rw [pullAllStep_remote_ne ig now ps e _ hi] at hrc
  rw [pullAllStep_fs_ne ig now ps e _ hp]
  exact hg hty hig rc hrc

theorem pullAllStep_good_self (ig : Str → Bool) (now : Nat) (ps : PullState)
    (e : FileTreeEntry)
    (h : (pullAllStep ig now ps e).skipped = ps.skipped) :
    goodEntry ig e (pullAllStep ig now ps e).remote (pullAllStep ig now ps e).fs := by
  intro hty hig rc' hrc'
  simp only [pullAllStep, if_neg hty, hig, Bool.false_eq_true, if_false] at h hrc' ⊢
  cases hrem : lookupA ps.remote e.id with
  | none =>
    simp only [hrem] at hrc'
    exact absurd hrc' (by simp)
  | some rc =>
    simp only [hrem] at h hrc' ⊢
    cases hfs : lookupA ps.fs e.path with
    | none =>
      simp only [hfs, contentEquals, Bool.false_eq_true, if_false] at h hrc' ⊢
      rw [hrem] at hrc'
      rw [lookupA_setA_self]
      exact hrc'
    | some lc =>
      by_cases hconf : lc ≠ rc
      · simp only [hfs] at h hrc' ⊢
        rw [if_pos hconf] at h hrc' ⊢
        have hce : contentEquals (some lc) (some rc) = false := by
          simp [contentEquals, hconf]
        rcases hres : (askResolution ps.engine ps.choices).1 with _ | _ | _ | _ <;>
          simp only [hres] at h hrc' ⊢
        -- ask: falls through to the download branch, which writes (lc ≠ rc)
        · rw [hce] at hrc' ⊢
          simp only [Bool.false_eq_true, if_false] at hrc' ⊢
          rw [hrem] at hrc'
          rw [lookupA_setA_self]
          exact hrc'
        -- useRemote: same download branch
        · rw [hce] at hrc' ⊢
          simp only [Bool.false_eq_true, if_false] at hrc' ⊢
          rw [hrem] at hrc'
          rw [lookupA_setA_self]
          exact hrc'
        -- useLocal: the local bytes are pushed; remote[id] becomes lc
        · by_cases hdoc : e.type = EntryType.doc ∧ ps.engine.hasSocket = true
          · rw [if_pos hdoc] at hrc'
            rw [lookupA_setA_self, applyOps_calculateOps_eq] at hrc'
            rw [hfs]
            exact hrc'
          · rw [if_neg hdoc] at hrc'
            rw [lookupA_setA_self] at hrc'
            rw [hfs]
            exact hrc'
        -- skip: contradicts the no-skip hypothesis
        · simp at h
      · push_neg at hconf
        subst hconf
        have hcne : ¬ (lc ≠ lc) := by simp
        have hce : contentEquals (some lc) (some lc) = true := by
          simp [contentEquals]
        simp only [hfs] at h hrc' ⊢
        rw [if_neg hcne] at h hrc' ⊢
        rw [hce] at hrc' ⊢
        simp only [if_true] at hrc' ⊢
        rw [hrem] at hrc'
        rw [hfs]
        exact hrc'

theorem pullAllStep_noop (ig : Str → Bool) (now : Nat) (ps : PullState)
    (e : FileTreeEntry) (hg : goodEntry ig e ps.remote ps.fs) :
    (pullAllStep ig now ps e).fs = ps.fs ∧
    (pullAllStep ig now ps e).remote = ps.remote ∧
    (pullAllStep ig now ps e).writes = ps.writes ∧
    (pullAllStep ig now ps e).conflicts = ps.conflicts ∧
    (pullAllStep ig now ps e).skipped = ps.skipped := by
  by_cases hty : e.type = EntryType.folder
  · simp [pullAllStep, hty]
  · by_cases hig : ig e.path = true
    · simp [pullAllStep, hty, hig]
    · have hig' : ig e.path = false := by
        cases hb : ig e.path
        · rfl
        · exact absurd hb hig
      simp only [pullAllStep, if_neg hty, hig', Bool.false_eq_true, if_false]
      cases hrem : lookupA ps.remote e.id with
      | none => exact ⟨rfl, rfl, rfl, rfl, rfl⟩
      | some rc =>
        have hloc : lookupA ps.fs e.path = some rc := hg hty hig' rc hrem
        have hce : contentEquals (some rc) (some rc) = true := by
          simp [contentEquals]
        have hcne : ¬ (rc ≠ rc) := by simp
        simp only [hloc]
        rw [if_neg hcne, hce]
        simp

theorem foldl_pullAllStep_skipped_mono (ig : Str → Bool) (now : Nat)
    (es : List FileTreeEntry) (ps : PullState) :
    ps.skipped ≤ (es.foldl (pullAllStep ig now) ps).skipped := by
  induction es generalizing ps with
  | nil => exact le_refl _
  | cons e rest ih =>
    simp only [List.foldl_cons]
    exact le_trans (pullAllStep_skipped_mono ig now ps e) (ih _)

theorem foldl_pullAllStep_fileTree (ig : Str → Bool) (now : Nat)
    (es : List FileTreeEntry) (ps : PullState) :
    (es.foldl (pullAllStep ig now) ps).engine.fileTree = ps.engine.fileTree := by
  induction es generalizing ps with
  | nil => rfl
  | cons e rest ih =>
    simp only [List.foldl_cons]
    rw [ih _, pullAllStep_fileTree]

theorem foldl_pullAllStep_good_preserve (ig : Str → Bool) (now : Nat)
    (es : List FileTreeEntry) (ps : PullState) (e' : FileTreeEntry)
    (hdiff : ∀ e'' ∈ es, e'.path ≠ e''.path ∧ e'.id ≠ e''.id)
    (hg : goodEntry ig e' ps.remote ps.fs) :
    goodEntry ig e' (es.foldl (pullAllStep ig now) ps).remote
      (es.foldl (pullAllStep ig now) ps).fs := by
  induction es generalizing ps with
  | nil => exact hg
  | cons e rest ih =>
    simp only [List.foldl_cons]
    refine ih _ (fun e'' h'' => hdiff e'' (List.mem_cons_of_mem _ h'')) ?_
    obtain ⟨hp, hi⟩ := hdiff e (List.mem_cons_self _ _)
    exact pullAllStep_good_preserve ig now ps e e' hp hi hg

theorem foldl_pullAllStep_good (ig : Str → Bool) (now : Nat)
    (es : List FileTreeEntry) (ps : PullState)
    (hids : (es.map FileTreeEntry.id).Nodup)
    (hpaths : (es.map FileTreeEntry.path).Nodup)
    (h : (es.foldl (pullAllStep ig now) ps).skipped = ps.skipped) :
    ∀ e ∈ es, goodEntry ig e (es.foldl (pullAllStep ig now) ps).remote
      (es.foldl (pullAllStep ig now) ps).fs := by
  induction es generalizing ps with
  | nil => intro e he; simp at he
  | cons e rest ih =>
    simp only [List.map_cons, List.nodup_cons] at hids hpaths
    simp only [List.foldl_cons] at h ⊢
    have h1 : (pullAllStep ig now ps e).skipped = ps.skipped :=
      le_antisymm
        (h ▸ foldl_pullAllStep_skipped_mono ig now rest (pullAllStep ig now ps e))
        (pullAllStep_skipped_mono ig now ps e)
    have hrest : (rest.foldl (pullAllStep ig now) (pullAllStep ig now ps e)).skipped =
        (pullAllStep ig now ps e).skipped := by
      rw [h, h1]
    intro e' he'
    rcases List.mem_cons.mp he' with he' | he'
    · subst he'
      refine foldl_pullAllStep_good_preserve ig now rest _ e' ?_
        (pullAllStep_good_self ig now ps e' h1)
      intro e'' h''
      constructor
      · intro hpe
        exact hpaths.1 (hpe ▸ List.mem_map.mpr ⟨e'', h'', rfl⟩)
      · intro hie
        exact hids.1 (hie ▸ List.mem_map.mpr ⟨e'', h'', rfl⟩)
    · exact ih _ hids.2 hpaths.2 hrest e' he'

theorem foldl_pullAllStep_noop (ig : Str → Bool) (now : Nat)
    (es : List FileTreeEntry) (ps : PullState)
    (hg : ∀ e ∈ es, goodEntry ig e ps.remote ps.fs) :
    (es.foldl (pullAllStep ig now) ps).fs = ps.fs ∧
    (es.foldl (pullAllStep ig now) ps).remote = ps.remote ∧
    (es.foldl (pullAllStep ig now) ps).writes = ps.writes ∧
    (es.foldl (pullAllStep ig now) ps).conflicts = ps.conflicts ∧
    (es.foldl (pullAllStep ig now) ps).skipped = ps.skipped := by
  induction es generalizing ps with
  | nil => exact ⟨rfl, rfl, rfl, rfl, rfl⟩
  | cons e rest ih =>
    simp only [List.foldl_cons]
    obtain ⟨s1, s2, s3, s4, s5⟩ :=
      pullAllStep_noop ig now ps e (hg e (List.mem_cons_self _ _))
    have hg' : ∀ e' ∈ rest, goodEntry ig e' (pullAllStep ig now ps e).remote
        (pullAllStep ig now ps e).fs := by
      intro e' he'
      rw [s1, s2]
      exact hg e' (List.mem_cons_of_mem _ he')
    obtain ⟨t1, t2, t3, t4, t5⟩ := ih _ hg'
    exact ⟨t1.trans s1, t2.trans s2, t3.trans s3, t4.trans s4, t5.trans s5⟩

theorem pullAll_noop_of_good (ig : Str → Bool) (now : Nat) (eng : EngineState)
    (remote fs : List (Str × Str)) (choices : List UserChoice)
    (hg : ∀ e ∈ eng.fileTree.map Prod.snd, goodEntry ig e remote fs) :
    (pullAll ig now eng remote fs choices).writes = [] ∧
    (pullAll ig now eng remote fs choices).conflicts = 0 := by
  obtain ⟨_, _, h3, h4, _⟩ :=
    foldl_pullAllStep_noop ig now (eng.fileTree.map Prod.snd)
      ⟨{ eng with conflictResolution := .ask, applyToAll := false,
                  status := .pulling }, remote, fs, choices, 0, 0, 0, []⟩ hg
  exact ⟨h3, h4⟩

theorem pullAll_fileTree (ig : Str → Bool) (now : Nat) (eng : EngineState)
    (remote fs : List (Str × Str)) (choices : List UserChoice) :
    (pullAll ig now eng remote fs choices).engine.fileTree = eng.fileTree :=
  foldl_pullAllStep_fileTree ig now _ _

/-- **C5** counterexample: a completed `pullAll` in which the user resolved
a conflict with `skip` leaves the local file differing from remote, so a
second `pullAll` immediately after — with no intervening local or remote
change — detects the same conflict again (1, not 0): the claim's "every
entry is found byte-identical to remote" fails.  Concretely: one remote doc
`/a` with remote text `"b"` and local text `"a"`; first call: 1 conflict,
user skips, zero writes, call completes; second call: 1 conflict. -/
theorem pullAll_skip_not_idempotent :
    (pullAll (fun _ => false) 0
      { fileTree := [("d".toList, ⟨"d".toList, .doc, "a".toList, "/a".toList, none⟩)] }
      [("d".toList, "b".toList)] [("/a".toList, "a".toList)] [.chooseSkip]).skipped = 1 ∧
    (pullAll (fun _ => false) 0
      { fileTree := [("d".toList, ⟨"d".toList, .doc, "a".toList, "/a".toList, none⟩)] }
      [("d".toList, "b".toList)] [("/a".toList, "a".toList)] [.chooseSkip]).writes = [] ∧
    (pullAll (fun _ => false) 0
      (pullAll (fun _ => false) 0
        { fileTree := [("d".toList, ⟨"d".toList, .doc, "a".toList, "/a".toList, none⟩)] }
        [("d".toList, "b".toList)] [("/a".toList, "a".toList)] [.chooseSkip]).engine
      (pullAll (fun _ => false) 0
        { fileTree := [("d".toList, ⟨"d".toList, .doc, "a".toList, "/a".toList, none⟩)] }
        [("d".toList, "b".toList)] [("/a".toList, "a".toList)] [.chooseSkip]).remote
      (pullAll (fun _ => false) 0
        { fileTree := [("d".toList, ⟨"d".toList, .doc, "a".toList, "/a".toList, none⟩)] }
        [("d".toList, "b".toList)] [("/a".toList, "a".toList)] [.chooseSkip]).fs
      [.chooseSkip]).conflicts = 1 := by
  refine ⟨by rfl, by rfl, by rfl⟩

/-- **C5** (amended): calling `pullAll()` a second time immediately after a
completed `pullAll()`, with no intervening local or remote change, performs
zero filesystem writes and detects zero conflicts — *provided* the first
call skipped no conflict (every conflict was resolved `useRemote` or
`useLocal`, or there were none) and the index entries carry duplicate-free
identities and paths (the §3 index invariant).  After such a first pass
every entry is byte-identical to remote, so the second pass does only cache
bookkeeping. -/
theorem pullAll_secondPass_idempotent (ig : Str → Bool) (now now2 : Nat)
    (eng : EngineState) (remote fs : List (Str × Str))
    (choices choices2 : List UserChoice)
    (hids : ((eng.fileTree.map Prod.snd).map FileTreeEntry.id).Nodup)
    (hpaths : ((eng.fileTree.map Prod.snd).map FileTreeEntry.path).Nodup)
    (hskip : (pullAll ig now eng remote fs choices).skipped = 0) :
    (pullAll ig now2 (pullAll ig now eng remote fs choices).engine
        (pullAll ig now eng remote fs choices).remote
        (pullAll ig now eng remote fs choices).fs choices2).writes = [] ∧
    (pullAll ig now2 (pullAll ig now eng remote fs choices).engine
        (pullAll ig now eng remote fs choices).remote
        (pullAll ig now eng remote fs choices).fs choices2).conflicts = 0 := by
  have hgood := foldl_pullAllStep_good ig now (eng.fileTree.map Prod.snd)
    ⟨{ eng with conflictResolution := .ask, applyToAll := false,
                status := .pulling }, remote, fs, choices, 0, 0, 0, []⟩
    hids hpaths hskip
  apply pullAll_noop_of_good
  intro e he
  rw [pullAll_fileTree] at he
  exact hgood e he

/-- Witness for `pullAll_secondPass_idempotent`: a project with one doc
whose first pull resolves without conflicts (local differs from remote, no
local copy at first — here local equals remote already). -/
theorem pullAll_secondPass_idempotent_witness :
    (pullAll (fun _ => false) 7
      (pullAll (fun _ => false) 3
        { fileTree := [("d".toList, ⟨"d".toList, .doc, "a".toList, "/a".toList, none⟩)] }
        [("d".toList, "b".toList)] [] []).engine
      (pullAll (fun _ => false) 3
        { fileTree := [("d".toList, ⟨"d".toList, .doc, "a".toList, "/a".toList, none⟩)] }
        [("d".toList, "b".toList)] [] []).remote
      (pullAll (fun _ => false) 3
        { fileTree := [("d".toList, ⟨"d".toList, .doc, "a".toList, "/a".toList, none⟩)] }
        [("d".toList, "b".toList)] [] []).fs
      []).writes = [] ∧
    (pullAll (fun _ => false) 7
      (pullAll (fun _ => false) 3
        { fileTree := [("d".toList, ⟨"d".toList, .doc, "a".toList, "/a".toList, none⟩)] }
        [("d".toList, "b".toList)] [] []).engine
      (pullAll (fun _ => false) 3
        { fileTree := [("d".toList, ⟨"d".toList, .doc, "a".toList, "/a".toList, none⟩)] }
        [("d".toList, "b".toList)] [] []).remote
      (pullAll (fun _ => false) 3
        { fileTree := [("d".toList, ⟨"d".toList, .doc, "a".toList, "/a".toList, none⟩)] }
        [("d".toList, "b".toList)] [] []).fs
      []).conflicts = 0 :=
  pullAll_secondPass_idempotent (fun _ => false) 3 7
    { fileTree := [("d".toList, ⟨"d".toList, .doc, "a".toList, "/a".toList, none⟩)] }
    [("d".toList, "b".toList)] [] [] []
    (by decide) (by decide) (by decide)

theorem joinProjectAux_v2_stable (o : ConnectOracle) (f : Nat) :
    joinProjectAux (f + 1) .v2 o = joinProjectAux 1 .v2 o := by
  cases hh : o.handshake .v2 <;> cases hj : o.joinV2 <;>
    simp [joinProjectAux, hh, hj]

theorem joinProjectAux_v1_stable (o : ConnectOracle) (f : Nat) :
    joinProjectAux (f + 2) .v1 o = joinProjectAux 2 .v1 o := by
  have h2 : joinProjectAux (f + 1) .v2 o = joinProjectAux 1 .v2 o :=
    joinProjectAux_v2_stable o f
  cases hh : o.handshake .v1 <;> cases hj : o.joinV1 <;>
    simp [joinProjectAux, hh, hj, h2]

/-- **C6** (bounded scheme fallback): on a connect attempt `joinProject`
starts with scheme v1; if the v1 handshake misses the 5s timeout or the v1
join is rejected / times out, the manager tears down the socket, switches
scheme (`reinit('v2')`) and retries exactly once with v2; a v1 success
involves no fallback; a v2 failure (handshake timeout or join timeout)
propagates as a connection failure with no further scheme alternation —
the attempted-scheme trace is always `[v1]` or `[v1, v2]`, and any
recursion fuel ≥ 2 gives the same result (the retry-by-recursion is
bounded). -/
theorem joinProject_fallback_bounded (o : ConnectOracle) :
    ((joinProject o).2 = [.v1] ∨ (joinProject o).2 = [.v1, .v2]) ∧
    (∀ fuel, 2 ≤ fuel → joinProjectAux fuel .v1 o = joinProject o) ∧
    (∀ p, o.handshake .v1 = true → o.joinV1 = some p →
      joinProject o = (Except.ok p, [.v1])) ∧
    ((o.handshake .v1 = false ∨ o.joinV1 = none) →
      (joinProject o).2 = [.v1, .v2] ∧
      (∀ p, o.handshake .v2 = true → o.joinV2 = some p →
        (joinProject o).1 = Except.ok p) ∧
      (o.handshake .v2 = false →
        (joinProject o).1 = Except.error .handshakeTimeout) ∧
      (o.handshake .v2 = true → o.joinV2 = none →
        (joinProject o).1 = Except.error .joinFailed)) := by
  refine ⟨?_, ?_, ?_, ?_⟩
  · cases hh1 : o.handshake .v1 <;> cases hh2 : o.handshake .v2 <;>
      cases hj1 : o.joinV1 <;> cases hj2 : o.joinV2 <;>
        simp [joinProject, joinProjectAux, hh1, hh2, hj1, hj2]
  · intro fuel hf
    obtain ⟨f, rfl⟩ : ∃ f, fuel = f + 2 := ⟨fuel - 2, by omega⟩
    exact joinProjectAux_v1_stable o f
  · intro p h1 h2
    simp [joinProject, joinProjectAux, h1, h2]
  · intro hfail
    rcases hfail with h1 | h1
    · cases hh2 : o.handshake .v2 <;> cases hj2 : o.joinV2 <;>
        simp [joinProject, joinProjectAux, h1, hh2, hj2]
    · cases hh1 : o.handshake .v1 <;> cases hh2 : o.handshake .v2 <;>
        cases hj2 : o.joinV2 <;>
        simp [joinProject, joinProjectAux, h1, hh1, hh2, hj2]

/-- Witness for `joinProject_fallback_bounded`: a run whose v1 handshake
succeeds but whose v1 join is rejected, and whose v2 attempt succeeds. -/
theorem joinProject_fallback_bounded_witness :
    joinProjectAux 5 .v1
        { handshake := fun _ => true, joinV1 := none, joinV2 := some 42 } =
      joinProject { handshake := fun _ => true, joinV1 := none, joinV2 := some 42 } ∧
    (joinProject { handshake := fun _ => true, joinV1 := none, joinV2 := some 42 }).2 =
      [.v1, .v2] ∧
    (joinProject { handshake := fun _ => true, joinV1 := none, joinV2 := some 42 }).1 =
      Except.ok 42 := by
  refine ⟨?_, ?_, ?_⟩
  · exact (joinProject_fallback_bounded _).2.1 5 (by omega)
  · exact ((joinProject_fallback_bounded _).2.2.2 (Or.inr rfl)).1
  · exact ((joinProject_fallback_bounded _).2.2.2 (Or.inr rfl)).2.1 42 rfl rfl

theorem foldl_registerHandlersS (hs : List HandlerFlags) (st : SocketState) :
    (hs.foldl registerHandlersS st).handlers = st.handlers ++ hs ∧
    (hs.foldl registerHandlersS st).listeners =
      st.listeners ++ allHandlerListeners st.handlers.length hs := by
  induction hs generalizing st with
  | nil => simp [allHandlerListeners]
  | cons h rest ih =>
    simp only [List.foldl_cons]
    obtain ⟨ih1, ih2⟩ := ih (registerHandlersS st h)
    constructor
    · rw [ih1]
      simp [registerHandlersS]
    · rw [ih2]
      simp [registerHandlersS, allHandlerListeners, List.append_assoc]

/-- **C8** counterexample: `reconnect()` on a disconnected manager with a
registered handler (providing `onFileChanged`) reruns `init()` on a fresh
socket, which attaches only the internal connection listeners: the
`otUpdateApplied` listener that `registerHandlers` had attached is *not*
re-attached, so content-change notifications are no longer received even
though the handler object is still in `this.handlers` — the caller must
re-subscribe, contradicting the claim. -/
theorem reconnect_drops_handler_listeners :
    (Listener.forHandler 0 "otUpdateApplied".toList ∈
      (registerHandlersS (initSocket {}) { onFileChanged := true }).listeners) ∧
    (registerHandlersS (initSocket {}) { onFileChanged := true }).connected = false ∧
    (Listener.forHandler 0 "otUpdateApplied".toList ∉
      (reconnectSocket
        (registerHandlersS (initSocket {}) { onFileChanged := true })).listeners) ∧
    (reconnectSocket (registerHandlersS (initSocket {})
        { onFileChanged := true })).handlers = [{ onFileChanged := true }] := by
  refine ⟨by decide, by decide, by decide, by decide⟩

/-- **C8** (amended): `reconnect()` is a no-op when the socket is already
connected; otherwise it reruns the init sequence on a fresh socket, which
re-attaches only the *internal* connection listeners (connect, disconnect,
accept/reject — these dispatch dynamically to the registered handler
objects, which are preserved); the per-event subscriptions made by
`registerHandlers` (entity create/rename/remove/move and content-change)
are *not* re-attached to the new socket, so callers must call
`registerHandlers` again to receive entity and content-change
notifications — in contrast to `reinit` (the scheme-fallback path), which
does re-register every previously registered handler. -/
theorem reconnect_behavior :
    (∀ st : SocketState, st.connected = true → reconnectSocket st = st) ∧
    (∀ st : SocketState, st.connected = false →
      (reconnectSocket st).listeners = internalListeners st.scheme ∧
      (reconnectSocket st).handlers = st.handlers ∧
      (∀ i e, Listener.forHandler i e ∉ (reconnectSocket st).listeners)) ∧
    (∀ (st : SocketState) (s : ConnectionScheme),
      (reinitSocket st s).listeners =
        internalListeners s ++ allHandlerListeners 0 st.handlers ∧
      (reinitSocket st s).handlers = st.handlers) := by
  refine ⟨?_, ?_, ?_⟩
  · intro st h
    simp [reconnectSocket, h]
  · intro st h
    refine ⟨by simp [reconnectSocket, h, initSocket], by simp [reconnectSocket, h, initSocket], ?_⟩
    intro i e hmem
    simp only [reconnectSocket, h, Bool.false_eq_true, if_false, initSocket] at hmem
    cases hs : st.scheme <;> simp [internalListeners, hs] at hmem
  · intro st s
    obtain ⟨h1, h2⟩ := foldl_registerHandlersS st.handlers
      (initSocket { st with scheme := s, handlers := [] })
    constructor
    · show (st.handlers.foldl registerHandlersS _).listeners = _
      rw [h2]
      simp [initSocket]
    · show (st.handlers.foldl registerHandlersS _).handlers = _
      rw [h1]
      simp [initSocket]

/-- Witness for `reconnect_behavior`: the connected no-op and the
disconnected re-init at concrete states. -/
theorem reconnect_behavior_witness :
    (reconnectSocket { connected := true, listeners := internalListeners .v1 } =
      { connected := true, listeners := internalListeners .v1 }) ∧
    ((reconnectSocket (registerHandlersS (initSocket {})
        { onFileChanged := true })).listeners = internalListeners .v1) := by
  constructor
  · exact reconnect_behavior.1 _ rfl
  · exact (reconnect_behavior.2.1 _ rfl).1

end LocalLeaf
